import Mathlib

/-!
Shallow embedding of `src/research_helpers.py` (the climatology engine:
`monthly_mean`, `monthly_regression`, `monthly_anomaly_series`).

Numeric values are modelled exactly.  Every scalar that the engine ever
produces lies in the real quadratic field ℚ(√3): the design matrix of the
harmonic regression only contains cosines and sines of multiples of 30°,
whose exact values are 0, ±1/2, ±1, ±√3/2.  We therefore compute in the
executable field `K` of pairs `a + b·√3` with `a b : ℚ`, and bridge to `ℝ`
(via `KtoR`) for the analytic least-squares statement.

IEEE NaN (which numpy produces when averaging an empty slice) is modelled by
`Val.nan`; numpy exceptions (`ValueError` from reshape/broadcast, and
`LinAlgError` from `np.linalg.lstsq`) are modelled with `Except NpError`.
-/

/-- The field ℚ(√3): `⟨a, b⟩` stands for `a + b·√3`.  Closed under the exact
values of the trigonometric entries of the regression design matrix. -/
structure K where
  a : ℚ
  b : ℚ
deriving DecidableEq, Repr

namespace K

@[ext] theorem ext_ab : ∀ {x y : K}, x.a = y.a → x.b = y.b → x = y
  | ⟨_, _⟩, ⟨_, _⟩, rfl, rfl => rfl

def add (x y : K) : K := ⟨x.a + y.a, x.b + y.b⟩

def neg (x : K) : K := ⟨-x.a, -x.b⟩

/-- `(a + b√3)(c + d√3) = (ac + 3bd) + (ad + bc)√3`. -/
def mul (x y : K) : K := ⟨x.a * y.a + 3 * x.b * y.b, x.a * y.b + x.b * y.a⟩

instance : Add K := ⟨K.add⟩
instance : Neg K := ⟨K.neg⟩
instance : Mul K := ⟨K.mul⟩
instance : Zero K := ⟨⟨0, 0⟩⟩
instance : One K := ⟨⟨1, 0⟩⟩

theorem add_def (x y : K) : x + y = ⟨x.a + y.a, x.b + y.b⟩ := rfl
theorem neg_def (x : K) : -x = ⟨-x.a, -x.b⟩ := rfl
theorem mul_def (x y : K) :
    x * y = ⟨x.a * y.a + 3 * x.b * y.b, x.a * y.b + x.b * y.a⟩ := rfl
theorem zero_def : (0 : K) = ⟨0, 0⟩ := rfl
theorem one_def : (1 : K) = ⟨1, 0⟩ := rfl

instance : CommRing K where
  add := K.add
  add_assoc := by intro x y z; apply ext_ab <;> simp [add_def, K.add] <;> ring
  zero := ⟨0, 0⟩
  zero_add := by intro x; apply ext_ab <;> simp [add_def, K.add, zero_def]
  add_zero := by intro x; apply ext_ab <;> simp [add_def, K.add, zero_def]
  add_comm := by intro x y; apply ext_ab <;> simp [add_def, K.add] <;> ring
  neg := K.neg
  nsmul := nsmulRec
  zsmul := zsmulRec
  neg_add_cancel := by
    intro x; apply ext_ab <;> simp [add_def, K.add, K.neg, zero_def]
  mul := K.mul
  mul_assoc := by intro x y z; apply ext_ab <;> simp [mul_def, K.mul] <;> ring
  one := ⟨1, 0⟩
  one_mul := by intro x; apply ext_ab <;> simp [mul_def, K.mul, one_def]
  mul_one := by intro x; apply ext_ab <;> simp [mul_def, K.mul, one_def]
  left_distrib := by
    intro x y z; apply ext_ab <;> simp [mul_def, K.mul, add_def, K.add] <;> ring
  right_distrib := by
    intro x y z; apply ext_ab <;> simp [mul_def, K.mul, add_def, K.add] <;> ring
  zero_mul := by intro x; apply ext_ab <;> simp [mul_def, K.mul, zero_def]
  mul_zero := by intro x; apply ext_ab <;> simp [mul_def, K.mul, zero_def]
  mul_comm := by intro x y; apply ext_ab <;> simp [mul_def, K.mul] <;> ring

/-- Multiplicative inverse in ℚ(√3) (by the conjugate); total function, junk
(`0`) on `0`. -/
def inv (x : K) : K := ⟨x.a / (x.a ^ 2 - 3 * x.b ^ 2), -x.b / (x.a ^ 2 - 3 * x.b ^ 2)⟩

instance : Inv K := ⟨K.inv⟩

instance : Div K := ⟨fun x y => x * y⁻¹⟩

theorem div_def (x y : K) : x / y = x * K.inv y := rfl

/-- Embedding of a rational scalar. -/
def ofQ (q : ℚ) : K := ⟨q, 0⟩

end K

/-- The field embedding of `K = ℚ(√3)` into `ℝ`: `⟨a, b⟩ ↦ a + b·√3`.  This is
the bridge between the exact executable scalars of the embedding and the real
numbers that the spec's trigonometric wording lives in. -/
noncomputable def KtoR : K →+* ℝ where
  toFun x := (x.a : ℝ) + (x.b : ℝ) * Real.sqrt 3
  map_one' := by simp [K.one_def]
  map_zero' := by simp [K.zero_def]
  map_add' := by intro x y; simp only [K.add_def]; push_cast; ring
  map_mul' := by
    intro x y
    have h3 : Real.sqrt 3 ^ 2 = 3 := Real.sq_sqrt (by norm_num)
    simp only [K.mul_def]
    push_cast
    linear_combination (-((x.b : ℝ) * (y.b : ℝ))) * h3

/-- Exact values of `cos (2π·k/12)` for `k = 0, …, 11`, as elements of
`K = ℚ(√3)` (so `⟨0, 1/2⟩` is `√3/2`).  Certified against `Real.cos` by
`KtoR_cosT` below. -/
def cos12 : ℕ → K
  | 0 => ⟨1, 0⟩
  | 1 => ⟨0, 1/2⟩
  | 2 => ⟨1/2, 0⟩
  | 3 => ⟨0, 0⟩
  | 4 => ⟨-(1/2), 0⟩
  | 5 => ⟨0, -(1/2)⟩
  | 6 => ⟨-1, 0⟩
  | 7 => ⟨0, -(1/2)⟩
  | 8 => ⟨-(1/2), 0⟩
  | 9 => ⟨0, 0⟩
  | 10 => ⟨1/2, 0⟩
  | _ => ⟨0, 1/2⟩

/-- Exact values of `sin (2π·k/12)` for `k = 0, …, 11`; certified by
`KtoR_sinT` below. -/
def sin12 : ℕ → K
  | 0 => ⟨0, 0⟩
  | 1 => ⟨1/2, 0⟩
  | 2 => ⟨0, 1/2⟩
  | 3 => ⟨1, 0⟩
  | 4 => ⟨0, 1/2⟩
  | 5 => ⟨1/2, 0⟩
  | 6 => ⟨0, 0⟩
  | 7 => ⟨-(1/2), 0⟩
  | 8 => ⟨0, -(1/2)⟩
  | 9 => ⟨-1, 0⟩
  | 10 => ⟨0, -(1/2)⟩
  | _ => ⟨-(1/2), 0⟩

/-- `np.cos(2*np.pi*k/12)`, computed exactly in `K` (for any natural `k`). -/
def cosT (k : ℕ) : K := cos12 (k % 12)

/-- `np.sin(2*np.pi*k/12)`, computed exactly in `K` (for any natural `k`). -/
def sinT (k : ℕ) : K := sin12 (k % 12)

/-! ## Floating-point values and numpy arrays

A numpy scalar is either NaN or a (finite) number, modelled exactly in `K`.
A numpy `ndarray` is its C-order flat buffer together with its shape — this
is numpy's own data model, and it is what makes `reshape` (used by
`monthly_mean`) a pure re-labelling of the same buffer. -/

/-- A numeric value: NaN or a finite scalar in `K`.  All arithmetic
propagates NaN, as IEEE arithmetic does. -/
inductive Val where
  | nan : Val
  | v : K → Val
deriving DecidableEq, Repr

namespace Val

def add : Val → Val → Val
  | nan, _ => nan
  | _, nan => nan
  | v x, v y => v (x + y)

def sub : Val → Val → Val
  | nan, _ => nan
  | _, nan => nan
  | v x, v y => v (x - y)

/-- Division of a value by a natural count, as `np.mean` does: the mean of an
empty slice is `0 / 0 = NaN`. -/
def divNat (x : Val) (q : ℕ) : Val :=
  if q = 0 then nan
  else match x with
    | nan => nan
    | v x => v (x / (K.ofQ q))

/-- The underlying scalar; junk (`0`) on NaN. -/
def toK : Val → K
  | nan => 0
  | v x => x

end Val

/-- Sum of a list of values (NaN-propagating). -/
def valSum (l : List Val) : Val := l.foldr Val.add (Val.v 0)

/-- `np.mean` of a list of `q` values: their sum divided by `q`; NaN when the
slice is empty. -/
def valMean (l : List Val) (q : ℕ) : Val := (valSum l).divNat q

/-- A numpy `ndarray`: shape plus C-order (row-major) flat data buffer. -/
structure NpArr where
  shape : List ℕ
  data : List Val
deriving DecidableEq, Repr

namespace NpArr

/-- Dimension `i` of the shape (junk `1` beyond the rank). -/
def dim (A : NpArr) (i : ℕ) : ℕ := A.shape.getD i 1

/-- Well-formedness for the rank-3 grids the engine operates on:
shape `(d0, d1, d2)` and a matching buffer length. -/
def wf3 (A : NpArr) : Prop :=
  A.shape.length = 3 ∧ A.data.length = A.dim 0 * A.dim 1 * A.dim 2

instance (A : NpArr) : Decidable (A.wf3) := by unfold wf3; infer_instance

/-- C-order element access `A[t, i, j]` of a rank-3 array (junk NaN out of
range). -/
def at3 (A : NpArr) (t i j : ℕ) : Val :=
  A.data.getD (t * (A.dim 1 * A.dim 2) + i * A.dim 2 + j) Val.nan

end NpArr

/-- The numpy exceptions the engine can raise: `ValueError` (reshape of an
incompatible size, or a broadcast of incompatible shapes) and
`numpy.linalg.LinAlgError` (`lstsq`: SVD does not converge on non-finite
input). -/
inductive NpError where
  | valueError : NpError
  | linAlgError : NpError
deriving DecidableEq, Repr

instance {ε α : Type} [DecidableEq ε] [DecidableEq α] : DecidableEq (Except ε α) := by
  intro x y
  cases x <;> cases y
  case error.error e f =>
    exact if h : e = f then isTrue (by rw [h]) else isFalse (by intro hh; injection hh; contradiction)
  case error.ok e a => exact isFalse (by intro hh; cases hh)
  case ok.error a e => exact isFalse (by intro hh; cases hh)
  case ok.ok a b =>
    exact if h : a = b then isTrue (by rw [h]) else isFalse (by intro hh; injection hh; contradiction)

/-- Shallow embedding of `monthly_mean` (src/research_helpers.py:7-20):

    complete_years = time_series.shape[0] // 12
    monthly_mean = np.mean(
        time_series[:complete_years*12].reshape(-1, 12, lat.shape[0], lon.shape[0]), axis=0)
    return monthly_mean

The slice `[:complete_years*12]` keeps the first `Y*12` rows, i.e. the first
`Y*12 * d1 * d2` entries of the C-order buffer.  `reshape(-1, 12, L1, L2)`
re-labels that buffer as shape `(q, 12, L1, L2)` where `q` is inferred; numpy
raises `ValueError` when `12*L1*L2` is zero or does not divide the buffer
size.  `np.mean(·, axis=0)` averages the `q` blocks of the buffer
elementwise (NaN for `q = 0`, numpy's mean of an empty slice). -/
def monthly_mean (time_series : NpArr) (lat lon : List Val) : Except NpError NpArr :=
  let complete_years := time_series.dim 0 / 12
  let sz := complete_years * 12 * (time_series.dim 1 * time_series.dim 2)
  let flat := time_series.data.take sz
  let p := 12 * (lat.length * lon.length)
  if p = 0 ∨ ¬ (p ∣ sz) then .error .valueError
  else
    let q := sz / p
    .ok ⟨[12, lat.length, lon.length],
         List.ofFn fun k : Fin p =>
           valMean (List.ofFn fun y : Fin q => flat.getD (y * p + k) Val.nan) q⟩

/-! ## `monthly_regression` (src/research_helpers.py:23-50) -/

/-- The predictor matrix of `monthly_regression`:

    predictors = np.ones((num_periods, 5))
    time = np.arange(1, 13)
    predictors[:, 1] = np.cos(2 * np.pi * time / 12)
    predictors[:, 2] = np.sin(2 * np.pi * time / 12)
    predictors[:, 3] = np.cos(4 * np.pi * time / 12)
    predictors[:, 4] = np.sin(4 * np.pi * time / 12)

Column 0 keeps the `np.ones` initialisation; columns 1-4 are overwritten with
the harmonic features at `time = m+1` (row `m`).  `cos(4π·t/12) =
cos(2π·(2t)/12)`, hence the doubled argument for columns 3 and 4.  The matrix
is a fixed constant: it does not depend on the input series. -/
def predictors (m : Fin 12) (j : Fin 5) : K :=
  match (j : ℕ) with
  | 1 => cosT ((m : ℕ) + 1)
  | 2 => sinT ((m : ℕ) + 1)
  | 3 => cosT (2 * ((m : ℕ) + 1))
  | 4 => sinT (2 * ((m : ℕ) + 1))
  | _ => 1

/-- Embedding of `np.linalg.lstsq(predictors, time_series, rcond=None)[0]`
for the 12×5 harmonic design.  `lstsq` returns a least-squares solution of
`P c ≈ y`; every least-squares solution satisfies the normal equations
`PᵀP c = Pᵀ y`, and for this design `PᵀP` is the invertible diagonal matrix
`diag(12, 6, 6, 6, 6)` (theorem `gram_diag` below), so the least-squares
solution is unique and equals `c_j = (Pᵀy)_j / (PᵀP)_jj`.  The least-squares
property of this definition is certified against arbitrary real competitors
in the claim C2 theorem. -/
def lstsqC (y : Fin 12 → K) (j : Fin 5) : K :=
  (∑ m : Fin 12, predictors m j * y m) / (∑ m : Fin 12, predictors m j * predictors m j)

/-- Shallow embedding of `monthly_regression` (src/research_helpers.py:23-50).

The column assignment `predictors[:, 1] = np.cos(2*np.pi*time/12)` stores a
12-vector into a column of length `num_periods = time_series.shape[0]`:
numpy raises `ValueError` unless `num_periods = 12`.  `np.linalg.lstsq`
raises `LinAlgError` (`SVD did not converge`) when the right-hand side
contains NaN.  Otherwise the function returns the fitted values
`np.matmul(predictors, coefficients)`. -/
def monthly_regression (time_series : List Val) : Except NpError (List Val) :=
  if time_series.length = 12 then
    if ∀ x ∈ time_series, x ≠ Val.nan then
      let y : Fin 12 → K := fun m => (time_series.getD (m : ℕ) Val.nan).toK
      .ok (List.ofFn fun m : Fin 12 => Val.v (∑ j : Fin 5, predictors m j * lstsqC y j))
    else .error .linAlgError
  else .error .valueError

/-! ## `monthly_anomaly_series` (src/research_helpers.py:53-75) -/

/-- The column `series_monthly_mean[:, i, j]` (a 12-value series at one grid
cell) of a monthly-mean field of shape `(12, L1, L2)`. -/
def meanColumn (mean : NpArr) (i j : ℕ) : List Val :=
  List.ofFn fun mm : Fin 12 => mean.at3 (mm : ℕ) i j

/-- The per-cell regression loop of `monthly_anomaly_series`:

    for j in range(len(lon_series)):
        for i in range(len(lat_series)):
            serie_monthly_mean_fit_aux[:, i, j] = monthly_regression(
                series_monthly_mean[:, i, j])

All cells `(i, j)` with `i < L1`, `j < L2` are visited and a raised exception
propagates out of the loop.  (The Python loop runs `j` outermost; we traverse
in row-major order, which is indistinguishable because the only exception
these calls can raise is `LinAlgError` — every column has length 12.)
Returns the list of per-cell fitted 12-vectors, indexed by `i*L2 + j`. -/
def regressAll (mean : NpArr) (L1 L2 : ℕ) : Except NpError (List (List Val)) :=
  (List.range (L1 * L2)).mapM fun k => monthly_regression (meanColumn mean (k / L2) (k % L2))

/-- Reassembles the per-cell fitted vectors into the C-order buffer of the
shape-`(12, L1, L2)` array `serie_monthly_mean_fit_aux`. -/
def auxData (cols : List (List Val)) (L1 L2 : ℕ) : List Val :=
  List.ofFn fun k : Fin (12 * (L1 * L2)) =>
    (cols.getD ((k : ℕ) % (L1 * L2)) []).getD ((k : ℕ) / (L1 * L2)) Val.nan

/-- Broadcast combination of two dimensions (numpy's rule: equal, or one of
them is 1); `none` means "operands could not be broadcast together". -/
def bdim (p q : ℕ) : Option ℕ :=
  if p = q then some p else if p = 1 then some q else if q = 1 then some p else none

/-- Index selection under broadcasting: a length-1 axis is read at 0. -/
def bidx (i d : ℕ) : ℕ := if d = 1 then 0 else i

/-- Elementwise subtraction `A - B` of two rank-3 arrays with numpy
broadcasting; `ValueError` when the shapes cannot be broadcast together. -/
def sub3 (A B : NpArr) : Except NpError NpArr :=
  match bdim (A.dim 0) (B.dim 0), bdim (A.dim 1) (B.dim 1), bdim (A.dim 2) (B.dim 2) with
  | some r0, some r1, some r2 =>
      .ok ⟨[r0, r1, r2],
           List.ofFn fun k : Fin (r0 * (r1 * r2)) =>
             Val.sub
               (A.at3 (bidx ((k : ℕ) / (r1 * r2)) (A.dim 0))
                      (bidx ((k : ℕ) % (r1 * r2) / r2) (A.dim 1))
                      (bidx ((k : ℕ) % (r1 * r2) % r2) (A.dim 2)))
               (B.at3 (bidx ((k : ℕ) / (r1 * r2)) (B.dim 0))
                      (bidx ((k : ℕ) % (r1 * r2) / r2) (B.dim 1))
                      (bidx ((k : ℕ) % (r1 * r2) % r2) (B.dim 2)))⟩
  | _, _, _ => .error .valueError

/-- Shallow embedding of `monthly_anomaly_series` (src/research_helpers.py:53-75):

    complete_years = time_series.shape[0] // 12
    series_monthly_mean = monthly_mean(time_series, lat_series, lon_series)
    serie_monthly_mean_fit_aux = np.zeros(series_monthly_mean.shape)
    for j ...: for i ...: serie_monthly_mean_fit_aux[:, i, j] = monthly_regression(...)
    series_monthly_mean_fit = np.tile(serie_monthly_mean_fit_aux, (complete_years, 1, 1))
    monthly_anomaly_series = time_series - series_monthly_mean_fit
    return monthly_anomaly_series, series_monthly_mean_fit, series_monthly_mean

`np.zeros` only pre-allocates `fit_aux`; the loop overwrites every entry.
`np.tile(aux, (Y, 1, 1))` stacks `Y` copies of `aux` along axis 0: shape
`(Y*12, L1, L2)`, buffer = `Y` concatenated copies.  The final subtraction
is `time_series - fit` on the *untruncated* input, with numpy broadcasting. -/
def monthly_anomaly_series (time_series : NpArr) (lat_series lon_series : List Val) :
    Except NpError (NpArr × NpArr × NpArr) := do
  let complete_years := time_series.dim 0 / 12
  let series_monthly_mean ← monthly_mean time_series lat_series lon_series
  let cols ← regressAll series_monthly_mean lat_series.length lon_series.length
  let fit : NpArr :=
    ⟨[complete_years * 12, lat_series.length, lon_series.length],
     List.flatten (List.replicate complete_years
       (auxData cols lat_series.length lon_series.length))⟩
  let anomaly ← sub3 time_series fit
  return (anomaly, fit, series_monthly_mean)
/-! ## Support lemmas -/

theorem KtoR_cos12 (r : ℕ) (hr : r < 12) :
    KtoR (cos12 r) = Real.cos (2 * Real.pi * r / 12) := by
  interval_cases r
  · have ha : (2 * Real.pi * ((0:ℕ) : ℝ) / 12) = 0 := by push_cast; ring
    rw [ha, Real.cos_zero]
    norm_num [cos12, KtoR]
  · have ha : (2 * Real.pi * ((1:ℕ) : ℝ) / 12) = Real.pi / 6 := by push_cast; ring
    rw [ha, Real.cos_pi_div_six]
    simp [cos12, KtoR]
    ring
  · have ha : (2 * Real.pi * ((2:ℕ) : ℝ) / 12) = Real.pi / 3 := by push_cast; ring
    rw [ha, Real.cos_pi_div_three]
    norm_num [cos12, KtoR]
  · have ha : (2 * Real.pi * ((3:ℕ) : ℝ) / 12) = Real.pi / 2 := by push_cast; ring
    rw [ha, Real.cos_pi_div_two]
    norm_num [cos12, KtoR]
  · have ha : (2 * Real.pi * ((4:ℕ) : ℝ) / 12) = Real.pi - Real.pi / 3 := by push_cast; ring
    rw [ha, Real.cos_pi_sub, Real.cos_pi_div_three]
    norm_num [cos12, KtoR]
  · have ha : (2 * Real.pi * ((5:ℕ) : ℝ) / 12) = Real.pi - Real.pi / 6 := by push_cast; ring
    rw [ha, Real.cos_pi_sub, Real.cos_pi_div_six]
    simp [cos12, KtoR]
    ring
  · have ha : (2 * Real.pi * ((6:ℕ) : ℝ) / 12) = Real.pi := by push_cast; ring
    rw [ha, Real.cos_pi]
    norm_num [cos12, KtoR]
  · have ha : (2 * Real.pi * ((7:ℕ) : ℝ) / 12) = 2 * Real.pi - (Real.pi - Real.pi / 6) := by push_cast; ring
    rw [ha, Real.cos_two_pi_sub, Real.cos_pi_sub, Real.cos_pi_div_six]
    simp [cos12, KtoR]
    ring
  · have ha : (2 * Real.pi * ((8:ℕ) : ℝ) / 12) = 2 * Real.pi - (Real.pi - Real.pi / 3) := by push_cast; ring
    rw [ha, Real.cos_two_pi_sub, Real.cos_pi_sub, Real.cos_pi_div_three]
    norm_num [cos12, KtoR]
  · have ha : (2 * Real.pi * ((9:ℕ) : ℝ) / 12) = 2 * Real.pi - Real.pi / 2 := by push_cast; ring
    rw [ha, Real.cos_two_pi_sub, Real.cos_pi_div_two]
    norm_num [cos12, KtoR]
  · have ha : (2 * Real.pi * ((10:ℕ) : ℝ) / 12) = 2 * Real.pi - Real.pi / 3 := by push_cast; ring
    rw [ha, Real.cos_two_pi_sub, Real.cos_pi_div_three]
    norm_num [cos12, KtoR]
  · have ha : (2 * Real.pi * ((11:ℕ) : ℝ) / 12) = 2 * Real.pi - Real.pi / 6 := by push_cast; ring
    rw [ha, Real.cos_two_pi_sub, Real.cos_pi_div_six]
    simp [cos12, KtoR]
    ring

theorem KtoR_sin12 (r : ℕ) (hr : r < 12) :
    KtoR (sin12 r) = Real.sin (2 * Real.pi * r / 12) := by
  interval_cases r
  · have ha : (2 * Real.pi * ((0:ℕ) : ℝ) / 12) = 0 := by push_cast; ring
    rw [ha, Real.sin_zero]
    norm_num [sin12, KtoR]
  · have ha : (2 * Real.pi * ((1:ℕ) : ℝ) / 12) = Real.pi / 6 := by push_cast; ring
    rw [ha, Real.sin_pi_div_six]
    norm_num [sin12, KtoR]
  · have ha : (2 * Real.pi * ((2:ℕ) : ℝ) / 12) = Real.pi / 3 := by push_cast; ring
    rw [ha, Real.sin_pi_div_three]
    simp [sin12, KtoR]
    ring
  · have ha : (2 * Real.pi * ((3:ℕ) : ℝ) / 12) = Real.pi / 2 := by push_cast; ring
    rw [ha, Real.sin_pi_div_two]
    norm_num [sin12, KtoR]
  · have ha : (2 * Real.pi * ((4:ℕ) : ℝ) / 12) = Real.pi - Real.pi / 3 := by push_cast; ring
    rw [ha, Real.sin_pi_sub, Real.sin_pi_div_three]
    simp [sin12, KtoR]
    ring
  · have ha : (2 * Real.pi * ((5:ℕ) : ℝ) / 12) = Real.pi - Real.pi / 6 := by push_cast; ring
    rw [ha, Real.sin_pi_sub, Real.sin_pi_div_six]
    norm_num [sin12, KtoR]
  · have ha : (2 * Real.pi * ((6:ℕ) : ℝ) / 12) = Real.pi := by push_cast; ring
    rw [ha, Real.sin_pi]
    norm_num [sin12, KtoR]
  · have ha : (2 * Real.pi * ((7:ℕ) : ℝ) / 12) = 2 * Real.pi - (Real.pi - Real.pi / 6) := by push_cast; ring
    rw [ha, Real.sin_two_pi_sub, Real.sin_pi_sub, Real.sin_pi_div_six]
    norm_num [sin12, KtoR]
  · have ha : (2 * Real.pi * ((8:ℕ) : ℝ) / 12) = 2 * Real.pi - (Real.pi - Real.pi / 3) := by push_cast; ring
    rw [ha, Real.sin_two_pi_sub, Real.sin_pi_sub, Real.sin_pi_div_three]
    simp [sin12, KtoR]
    ring
  · have ha : (2 * Real.pi * ((9:ℕ) : ℝ) / 12) = 2 * Real.pi - Real.pi / 2 := by push_cast; ring
    rw [ha, Real.sin_two_pi_sub, Real.sin_pi_div_two]
    norm_num [sin12, KtoR]
  · have ha : (2 * Real.pi * ((10:ℕ) : ℝ) / 12) = 2 * Real.pi - Real.pi / 3 := by push_cast; ring
    rw [ha, Real.sin_two_pi_sub, Real.sin_pi_div_three]
    simp [sin12, KtoR]
    ring
  · have ha : (2 * Real.pi * ((11:ℕ) : ℝ) / 12) = 2 * Real.pi - Real.pi / 6 := by push_cast; ring
    rw [ha, Real.sin_two_pi_sub, Real.sin_pi_div_six]
    norm_num [sin12, KtoR]

theorem angle_split (k : ℕ) :
    (2 * Real.pi * k / 12 : ℝ) = 2 * Real.pi * (k % 12 : ℕ) / 12 + (k / 12 : ℕ) * (2 * Real.pi) := by
  have h : ((k % 12 : ℕ) : ℝ) + 12 * ((k / 12 : ℕ) : ℝ) = (k : ℝ) := by
    exact_mod_cast congrArg (Nat.cast : ℕ → ℝ) (Nat.mod_add_div k 12)
  linear_combination (2 * Real.pi / 12) * h.symm

/-- The exact `K`-valued cosine table agrees with `Real.cos` on every
argument `2π·k/12` that the design matrix uses. -/
theorem KtoR_cosT (k : ℕ) : KtoR (cosT k) = Real.cos (2 * Real.pi * k / 12) := by
  rw [cosT, angle_split, Real.cos_add_nat_mul_two_pi]
  exact KtoR_cos12 (k % 12) (Nat.mod_lt k (by norm_num))

/-- The exact `K`-valued sine table agrees with `Real.sin` on every
argument `2π·k/12` that the design matrix uses. -/
theorem KtoR_sinT (k : ℕ) : KtoR (sinT k) = Real.sin (2 * Real.pi * k / 12) := by
  rw [sinT, angle_split, Real.sin_add_nat_mul_two_pi]
  exact KtoR_sin12 (k % 12) (Nat.mod_lt k (by norm_num))


theorem getD_ofFn {α : Type} {n : ℕ} (f : Fin n → α) (k : ℕ) (d : α) (h : k < n) :
    (List.ofFn f).getD k d = f ⟨k, h⟩ := by
  rw [List.getD_eq_getElem?_getD, List.getElem?_ofFn, List.ofFnNthVal, dif_pos h]
  rfl

theorem getD_take {α : Type} (l : List α) (n k : ℕ) (d : α) (h : k < n) :
    (l.take n).getD k d = l.getD k d := by
  rw [List.getD_eq_getElem?_getD, List.getD_eq_getElem?_getD, List.getElem?_take, if_pos h]

theorem idx2_lt {i j b c : ℕ} (hi : i < b) (hj : j < c) : i * c + j < b * c := by
  calc i * c + j < i * c + c := by omega
  _ = (i + 1) * c := by ring
  _ ≤ b * c := Nat.mul_le_mul_right c hi

theorem idx3_lt {m i j a b c : ℕ} (hm : m < a) (hi : i < b) (hj : j < c) :
    m * (b * c) + (i * c + j) < a * (b * c) :=
  idx2_lt hm (idx2_lt hi hj)

theorem ofFn_ext {α : Type} {n m : ℕ} (h : n = m) (f : Fin n → α) (g : Fin m → α)
    (hfg : ∀ (k : ℕ) (h1 : k < n) (h2 : k < m), f ⟨k, h1⟩ = g ⟨k, h2⟩) :
    List.ofFn f = List.ofFn g := by
  subst h
  exact congrArg _ (funext fun i => hfg i i.isLt i.isLt)

theorem monthly_mean_spec (X : NpArr) (lat lon : List Val)
    (hlat : lat.length = X.dim 1) (hlon : lon.length = X.dim 2)
    (hpos : 0 < X.dim 1 * X.dim 2) :
    monthly_mean X lat lon
      = .ok ⟨[12, X.dim 1, X.dim 2],
             List.ofFn fun k : Fin (12 * (X.dim 1 * X.dim 2)) =>
               valMean (List.ofFn fun y :
                   Fin (X.dim 0 / 12 * 12 * (X.dim 1 * X.dim 2) / (12 * (X.dim 1 * X.dim 2))) =>
                 (X.data.take (X.dim 0 / 12 * 12 * (X.dim 1 * X.dim 2))).getD
                   ((y : ℕ) * (12 * (X.dim 1 * X.dim 2)) + (k : ℕ)) Val.nan)
                 (X.dim 0 / 12 * 12 * (X.dim 1 * X.dim 2) / (12 * (X.dim 1 * X.dim 2)))⟩ := by
  have hcond : ¬ (12 * (X.dim 1 * X.dim 2) = 0
      ∨ ¬ (12 * (X.dim 1 * X.dim 2) ∣ X.dim 0 / 12 * 12 * (X.dim 1 * X.dim 2))) := by
    push_neg
    exact ⟨by positivity, ⟨X.dim 0 / 12, by ring⟩⟩
  simp only [monthly_mean, hlat, hlon]
  rw [if_neg hcond]
  rfl

theorem monthly_mean_ok (X : NpArr) (lat lon : List Val)
    (hlat : lat.length = X.dim 1) (hlon : lon.length = X.dim 2)
    (hpos : 0 < X.dim 1 * X.dim 2) :
    ∃ M : NpArr, monthly_mean X lat lon = .ok M ∧
      M.shape = [12, X.dim 1, X.dim 2] ∧
      M.data.length = 12 * (X.dim 1 * X.dim 2) ∧
      ∀ t i j, t < 12 → i < X.dim 1 → j < X.dim 2 →
        M.at3 t i j
          = valMean (List.ofFn fun y : Fin (X.dim 0 / 12) => X.at3 ((y : ℕ) * 12 + t) i j)
              (X.dim 0 / 12) := by
  have hd1 : 0 < X.dim 1 := by
    rcases Nat.eq_zero_or_pos (X.dim 1) with h | h
    · rw [h] at hpos; simp at hpos
    · exact h
  have hd2 : 0 < X.dim 2 := by
    rcases Nat.eq_zero_or_pos (X.dim 2) with h | h
    · rw [h] at hpos; simp at hpos
    · exact h
  have hq : X.dim 0 / 12 * 12 * (X.dim 1 * X.dim 2) / (12 * (X.dim 1 * X.dim 2))
      = X.dim 0 / 12 := by
    rw [Nat.mul_assoc]
    exact Nat.mul_div_cancel _ (by positivity)
  refine ⟨_, monthly_mean_spec X lat lon hlat hlon hpos, rfl, by simp, ?_⟩
  intro t i j ht hi hj
  have hk0 : t * (X.dim 1 * X.dim 2) + (i * X.dim 2 + j) < 12 * (X.dim 1 * X.dim 2) :=
    idx3_lt ht hi hj
  have hk0a : t * (X.dim 1 * X.dim 2) + i * X.dim 2 + j < 12 * (X.dim 1 * X.dim 2) := by
    rw [Nat.add_assoc]
    exact hk0
  simp only [NpArr.at3, NpArr.dim, List.getD_cons_succ, List.getD_cons_zero]
  simp only [show ∀ i : ℕ, X.shape.getD i 1 = X.dim i from fun i => rfl]
  rw [getD_ofFn _ _ _ hk0a]
  have hlist :
      (List.ofFn fun y :
          Fin (X.dim 0 / 12 * 12 * (X.dim 1 * X.dim 2) / (12 * (X.dim 1 * X.dim 2))) =>
        (X.data.take (X.dim 0 / 12 * 12 * (X.dim 1 * X.dim 2))).getD
          ((y : ℕ) * (12 * (X.dim 1 * X.dim 2))
            + ((⟨t * (X.dim 1 * X.dim 2) + i * X.dim 2 + j, hk0a⟩ :
                Fin (12 * (X.dim 1 * X.dim 2))) : ℕ)) Val.nan)
      = (List.ofFn fun y : Fin (X.dim 0 / 12) => X.at3 ((y : ℕ) * 12 + t) i j) := by
    refine ofFn_ext hq _ _ ?_
    intro y hy1 hy2
    have hyb : y * (12 * (X.dim 1 * X.dim 2))
        + (t * (X.dim 1 * X.dim 2) + (i * X.dim 2 + j))
        < X.dim 0 / 12 * 12 * (X.dim 1 * X.dim 2) := by
      rw [Nat.mul_assoc]
      exact idx2_lt hy2 hk0
    have hyb2 : y * (12 * (X.dim 1 * X.dim 2))
        + (t * (X.dim 1 * X.dim 2) + i * X.dim 2 + j)
        < X.dim 0 / 12 * 12 * (X.dim 1 * X.dim 2) := by
      rw [Nat.add_assoc (t * (X.dim 1 * X.dim 2))]
      exact hyb
    rw [getD_take _ _ _ _ hyb2]
    simp only [NpArr.at3]
    congr 1
    ring
  exact congrArg₂ valMean hlist hq

theorem flat_decomp (k d1 d2 : ℕ) :
    k / (d1 * d2) * (d1 * d2) + k % (d1 * d2) / d2 * d2 + k % (d1 * d2) % d2 = k := by
  have h1 : d1 * d2 * (k / (d1 * d2)) + k % (d1 * d2) = k := Nat.div_add_mod k (d1 * d2)
  have h2 : d2 * (k % (d1 * d2) / d2) + k % (d1 * d2) % d2 = k % (d1 * d2) :=
    Nat.div_add_mod (k % (d1 * d2)) d2
  calc k / (d1 * d2) * (d1 * d2) + k % (d1 * d2) / d2 * d2 + k % (d1 * d2) % d2
      = d1 * d2 * (k / (d1 * d2)) + (d2 * (k % (d1 * d2) / d2) + k % (d1 * d2) % d2) := by ring
    _ = d1 * d2 * (k / (d1 * d2)) + k % (d1 * d2) := by rw [h2]
    _ = k := h1

theorem monthly_mean_congr (X X2 : NpArr) (lat lon : List Val)
    (hsh : X2.shape = X.shape)
    (hlat : lat.length = X.dim 1) (hlon : lon.length = X.dim 2)
    (hpos : 0 < X.dim 1 * X.dim 2)
    (hagree : ∀ t i j, t < X.dim 0 / 12 * 12 → i < X.dim 1 → j < X.dim 2 →
      X2.at3 t i j = X.at3 t i j) :
    monthly_mean X2 lat lon = monthly_mean X lat lon := by
  have hdim : ∀ i, X2.dim i = X.dim i := fun i => by simp [NpArr.dim, hsh]
  have hd1 : 0 < X.dim 1 := by
    rcases Nat.eq_zero_or_pos (X.dim 1) with h | h
    · rw [h] at hpos; simp at hpos
    · exact h
  have hd2 : 0 < X.dim 2 := by
    rcases Nat.eq_zero_or_pos (X.dim 2) with h | h
    · rw [h] at hpos; simp at hpos
    · exact h
  have hq : X.dim 0 / 12 * 12 * (X.dim 1 * X.dim 2) / (12 * (X.dim 1 * X.dim 2))
      = X.dim 0 / 12 := by
    rw [Nat.mul_assoc]
    exact Nat.mul_div_cancel _ (by positivity)
  -- agreement of the flat buffers below the truncation boundary
  have hflat : ∀ k, k < X.dim 0 / 12 * 12 * (X.dim 1 * X.dim 2) →
      X2.data.getD k Val.nan = X.data.getD k Val.nan := by
    intro k hk
    have ht : k / (X.dim 1 * X.dim 2) < X.dim 0 / 12 * 12 :=
      (Nat.div_lt_iff_lt_mul hpos).mpr hk
    have hr : k % (X.dim 1 * X.dim 2) < X.dim 1 * X.dim 2 := Nat.mod_lt _ hpos
    have hi : k % (X.dim 1 * X.dim 2) / X.dim 2 < X.dim 1 :=
      (Nat.div_lt_iff_lt_mul hd2).mpr hr
    have hj : k % (X.dim 1 * X.dim 2) % X.dim 2 < X.dim 2 := Nat.mod_lt _ hd2
    have h := hagree _ _ _ ht hi hj
    simp only [NpArr.at3, hdim] at h
    rw [flat_decomp k (X.dim 1) (X.dim 2)] at h
    exact h
  rw [monthly_mean_spec X2 lat lon (by rw [hdim 1]; exact hlat) (by rw [hdim 2]; exact hlon)
        (by rw [hdim 1, hdim 2]; exact hpos),
      monthly_mean_spec X lat lon hlat hlon hpos]
  have hdata :
      (List.ofFn fun k : Fin (12 * (X2.dim 1 * X2.dim 2)) =>
        valMean (List.ofFn fun y :
            Fin (X2.dim 0 / 12 * 12 * (X2.dim 1 * X2.dim 2) / (12 * (X2.dim 1 * X2.dim 2))) =>
          (X2.data.take (X2.dim 0 / 12 * 12 * (X2.dim 1 * X2.dim 2))).getD
            ((y : ℕ) * (12 * (X2.dim 1 * X2.dim 2)) + (k : ℕ)) Val.nan)
          (X2.dim 0 / 12 * 12 * (X2.dim 1 * X2.dim 2) / (12 * (X2.dim 1 * X2.dim 2))))
      = (List.ofFn fun k : Fin (12 * (X.dim 1 * X.dim 2)) =>
        valMean (List.ofFn fun y :
            Fin (X.dim 0 / 12 * 12 * (X.dim 1 * X.dim 2) / (12 * (X.dim 1 * X.dim 2))) =>
          (X.data.take (X.dim 0 / 12 * 12 * (X.dim 1 * X.dim 2))).getD
            ((y : ℕ) * (12 * (X.dim 1 * X.dim 2)) + (k : ℕ)) Val.nan)
          (X.dim 0 / 12 * 12 * (X.dim 1 * X.dim 2) / (12 * (X.dim 1 * X.dim 2)))) := by
    refine ofFn_ext (by rw [hdim 1, hdim 2]) _ _ ?_
    intro k hk1 hk2
    refine congrArg₂ valMean (ofFn_ext (by rw [hdim 0, hdim 1, hdim 2]) _ _ ?_)
      (by rw [hdim 0, hdim 1, hdim 2])
    intro y hy1 hy2
    simp only [hdim 0, hdim 1, hdim 2] at hy1 ⊢
    have hyk : y * (12 * (X.dim 1 * X.dim 2)) + k < X.dim 0 / 12 * 12 * (X.dim 1 * X.dim 2) := by
      have h1 := idx2_lt hy1 hk2
      rw [hq] at h1
      calc y * (12 * (X.dim 1 * X.dim 2)) + k
          < X.dim 0 / 12 * (12 * (X.dim 1 * X.dim 2)) := h1
        _ = X.dim 0 / 12 * 12 * (X.dim 1 * X.dim 2) := by ring
    rw [getD_take _ _ _ _ hyk, getD_take _ _ _ _ hyk]
    exact hflat _ hyk
  refine congrArg Except.ok ?_
  rw [hdata, hdim 1, hdim 2]

theorem val_add_v_zero (x : Val) : Val.add x (Val.v 0) = x := by
  cases x with
  | nan => rfl
  | v a => simp [Val.add]

theorem val_divNat_one (x : Val) : Val.divNat x 1 = x := by
  cases x with
  | nan => rfl
  | v a =>
    simp only [Val.divNat, if_neg (by norm_num : (1 : ℕ) ≠ 0)]
    have h1 : K.ofQ (1 : ℕ) = 1 := by
      apply K.ext_ab <;> simp [K.ofQ, K.one_def]
    have hinv : K.inv 1 = 1 := by
      apply K.ext_ab <;> simp [K.inv, K.one_def]
    rw [h1, K.div_def, hinv, mul_one]

theorem valMean_singleton (x : Val) : valMean [x] 1 = x := by
  rw [valMean, valSum, List.foldr_cons, List.foldr_nil, val_add_v_zero, val_divNat_one]

theorem val_sub_add_cancel (x y : Val) (hy : y ≠ Val.nan) :
    Val.add (Val.sub x y) y = x := by
  cases y with
  | nan => exact absurd rfl hy
  | v b =>
    cases x with
    | nan => rfl
    | v a => simp [Val.sub, Val.add]

/-! ## Claim theorems -/

/-- **C1.** For every grid `X` of shape `(T, n_lat, n_lon)` with `T ≥ 12` and
nonempty spatial axes, and coordinate arrays of matching lengths,
`monthly_mean(X, lat, lon)` returns an array of shape `(12, n_lat, n_lon)`
whose entry at `(m, i, j)` is the arithmetic mean of `X[y*12 + m, i, j]` over
the complete years `y = 0 … ⌊T/12⌋−1`; and trailing months beyond
`⌊T/12⌋*12` do not influence the result. -/
theorem monthly_mean_complete_years_mean (X : NpArr) (lat lon : List Val) (T nlat nlon : ℕ)
    (hsh : X.shape = [T, nlat, nlon]) (_hT : 12 ≤ T)
    (hlat : lat.length = nlat) (hlon : lon.length = nlon)
    (hnlat : 0 < nlat) (hnlon : 0 < nlon) :
    ∃ M : NpArr, monthly_mean X lat lon = .ok M ∧
      M.shape = [12, nlat, nlon] ∧
      (∀ m i j, m < 12 → i < nlat → j < nlon →
        M.at3 m i j
          = valMean (List.ofFn fun y : Fin (T / 12) => X.at3 ((y : ℕ) * 12 + m) i j) (T / 12)) ∧
      (∀ X2 : NpArr, X2.shape = X.shape →
        (∀ t i j, t < T / 12 * 12 → i < nlat → j < nlon → X2.at3 t i j = X.at3 t i j) →
        monthly_mean X2 lat lon = monthly_mean X lat lon) := by
  have hd0 : X.dim 0 = T := by simp [NpArr.dim, hsh]
  have hd1 : X.dim 1 = nlat := by simp [NpArr.dim, hsh]
  have hd2 : X.dim 2 = nlon := by simp [NpArr.dim, hsh]
  obtain ⟨M, hM, hMsh, hMlen, hMat⟩ :=
    monthly_mean_ok X lat lon (by rw [hd1]; exact hlat) (by rw [hd2]; exact hlon)
      (by rw [hd1, hd2]; exact Nat.mul_pos hnlat hnlon)
  refine ⟨M, hM, by rw [hMsh, hd1, hd2], ?_, ?_⟩
  · intro m i j hm hi hj
    rw [hMat m i j hm (by rw [hd1]; exact hi) (by rw [hd2]; exact hj)]
    exact congrArg₂ valMean (ofFn_ext (by rw [hd0]) _ _ (fun y h1 h2 => rfl)) (by rw [hd0])
  · intro X2 hsh2 hagree
    apply monthly_mean_congr X X2 lat lon hsh2 (by rw [hd1]; exact hlat)
      (by rw [hd2]; exact hlon) (by rw [hd1, hd2]; exact Nat.mul_pos hnlat hnlon)
    intro t i j ht hi hj
    exact hagree t i j (by rw [hd0] at ht; exact ht) (by rw [hd1] at hi; exact hi)
      (by rw [hd2] at hj; exact hj)

/-- Witness for C1 at a concrete `(13, 1, 1)` grid (one complete year plus a
trailing month). -/
theorem monthly_mean_complete_years_mean_witness :
    ((⟨[13, 1, 1], List.ofFn fun t : Fin 13 => Val.v ⟨(t : ℕ), 0⟩⟩ : NpArr).shape
        = [13, 1, 1] ∧ 12 ≤ 13 ∧ [Val.v 0].length = 1 ∧ 0 < 1) ∧
    (∃ M : NpArr,
      monthly_mean ⟨[13, 1, 1], List.ofFn fun t : Fin 13 => Val.v ⟨(t : ℕ), 0⟩⟩ [Val.v 0] [Val.v 0]
          = .ok M ∧
      M.shape = [12, 1, 1] ∧
      (∀ m i j, m < 12 → i < 1 → j < 1 →
        M.at3 m i j
          = valMean (List.ofFn fun y : Fin (13 / 12) =>
              (⟨[13, 1, 1], List.ofFn fun t : Fin 13 => Val.v ⟨(t : ℕ), 0⟩⟩ : NpArr).at3
                ((y : ℕ) * 12 + m) i j) (13 / 12)) ∧
      (∀ X2 : NpArr,
        X2.shape = (⟨[13, 1, 1], List.ofFn fun t : Fin 13 => Val.v ⟨(t : ℕ), 0⟩⟩ : NpArr).shape →
        (∀ t i j, t < 13 / 12 * 12 → i < 1 → j < 1 →
          X2.at3 t i j
            = (⟨[13, 1, 1], List.ofFn fun t : Fin 13 => Val.v ⟨(t : ℕ), 0⟩⟩ : NpArr).at3 t i j) →
        monthly_mean X2 [Val.v 0] [Val.v 0]
          = monthly_mean ⟨[13, 1, 1], List.ofFn fun t : Fin 13 => Val.v ⟨(t : ℕ), 0⟩⟩
              [Val.v 0] [Val.v 0])) :=
  ⟨⟨rfl, by decide, rfl, by decide⟩,
   monthly_mean_complete_years_mean _ [Val.v 0] [Val.v 0] 13 1 1 rfl (by decide) rfl rfl
     (by decide) (by decide)⟩
/-- **C7.** Idempotence: a field `M` of shape `(12, n_lat, n_lon)` (one
complete year, `T = 12`) is returned unchanged by `monthly_mean`. -/
theorem monthly_mean_idempotent (M : NpArr) (lat lon : List Val) (nlat nlon : ℕ)
    (hsh : M.shape = [12, nlat, nlon]) (hlen : M.data.length = 12 * (nlat * nlon))
    (hlat : lat.length = nlat) (hlon : lon.length = nlon)
    (hnlat : 0 < nlat) (hnlon : 0 < nlon) :
    monthly_mean M lat lon = .ok M := by
  obtain ⟨sh, da⟩ := M
  simp only at hsh hlen
  subst hsh
  have hd1 : (⟨[12, nlat, nlon], da⟩ : NpArr).dim 1 = nlat := rfl
  have hd2 : (⟨[12, nlat, nlon], da⟩ : NpArr).dim 2 = nlon := rfl
  rw [monthly_mean_spec _ lat lon (by rw [hd1]; exact hlat) (by rw [hd2]; exact hlon)
    (by rw [hd1, hd2]; exact Nat.mul_pos hnlat hnlon)]
  refine congrArg Except.ok ?_
  refine congrArg (NpArr.mk _) ?_
  have hq : (12 : ℕ) / 12 * 12 * (nlat * nlon) / (12 * (nlat * nlon)) = 1 := by
    have h : (12 : ℕ) / 12 * 12 * (nlat * nlon) = 12 * (nlat * nlon) := by norm_num
    rw [h]
    exact Nat.div_self (by positivity)
  refine List.ext_getElem (by simp [hlen, NpArr.dim]) ?_
  intro k hk1 hk2
  rw [List.getElem_ofFn]
  have hklt : k < 12 * (nlat * nlon) := by simpa [hlen] using hk2
  refine Eq.trans (congrArg₂ valMean
    (ofFn_ext hq _ (fun _ : Fin 1 => da.getD k Val.nan) ?_) hq) ?_
  · intro y hy1 hy2
    have hy0 : y = 0 := by omega
    subst hy0
    show (da.take ((12:ℕ) / 12 * 12 * (nlat * nlon))).getD
        (0 * (12 * (nlat * nlon)) + k) Val.nan = da.getD k Val.nan
    rw [Nat.zero_mul, Nat.zero_add]
    exact getD_take _ _ _ _ (by norm_num; exact hklt)
  · rw [List.ofFn_succ, List.ofFn_zero, valMean_singleton]
    rw [List.getD_eq_getElem?_getD, List.getElem?_eq_getElem hk2]
    rfl

/-- Witness for C7 at a concrete `(12, 1, 1)` field with irrational (√3)
entries. -/
theorem monthly_mean_idempotent_witness :
    ((⟨[12, 1, 1], List.ofFn fun t : Fin 12 => Val.v ⟨(t : ℕ) + 1, 1/2⟩⟩ : NpArr).shape
        = [12, 1, 1]
      ∧ (⟨[12, 1, 1], List.ofFn fun t : Fin 12 => Val.v ⟨(t : ℕ) + 1, 1/2⟩⟩ : NpArr).data.length
        = 12 * (1 * 1))
    ∧ monthly_mean ⟨[12, 1, 1], List.ofFn fun t : Fin 12 => Val.v ⟨(t : ℕ) + 1, 1/2⟩⟩
        [Val.v 0] [Val.v 0]
      = .ok ⟨[12, 1, 1], List.ofFn fun t : Fin 12 => Val.v ⟨(t : ℕ) + 1, 1/2⟩⟩ :=
  ⟨⟨rfl, by decide⟩,
   monthly_mean_idempotent _ [Val.v 0] [Val.v 0] 1 1 rfl (by decide) rfl rfl
     (by decide) (by decide)⟩

/-- **C8.** Determinism: `monthly_regression` (and the whole
`monthly_anomaly_series` pipeline built on it) is a pure function of its
inputs — equal inputs give equal outputs.  (Freedom from mutation of the
input arrays is what licenses this pure-function embedding in the first
place: the source allocates fresh arrays — `np.ones`, `lstsq`, `matmul`,
`np.zeros`, `np.tile` — and never writes into its arguments.) -/
theorem monthly_regression_deterministic (ts1 ts2 : List Val) (h : ts1 = ts2) :
    monthly_regression ts1 = monthly_regression ts2 ∧
    ∀ (X1 X2 : NpArr) (lat1 lat2 lon1 lon2 : List Val),
      X1 = X2 → lat1 = lat2 → lon1 = lon2 →
      monthly_anomaly_series X1 lat1 lon1 = monthly_anomaly_series X2 lat2 lon2 := by
  subst h
  refine ⟨rfl, ?_⟩
  intro X1 X2 lat1 lat2 lon1 lon2 h1 h2 h3
  subst h1; subst h2; subst h3
  rfl

/-- Witness for C8 at a concrete repeated call. -/
theorem monthly_regression_deterministic_witness :
    (List.replicate 12 (Val.v 1) = List.replicate 12 (Val.v 1)) ∧
    (monthly_regression (List.replicate 12 (Val.v 1))
        = monthly_regression (List.replicate 12 (Val.v 1)) ∧
      ∀ (X1 X2 : NpArr) (lat1 lat2 lon1 lon2 : List Val),
        X1 = X2 → lat1 = lat2 → lon1 = lon2 →
        monthly_anomaly_series X1 lat1 lon1 = monthly_anomaly_series X2 lat2 lon2) :=
  ⟨rfl, monthly_regression_deterministic _ _ rfl⟩

/-- **C9.** `monthly_regression` fails (numpy `ValueError` from the
12-vector column assignment) on every input of length ≠ 12, so it is total
only on length-12 inputs; and on (numeric) length-12 inputs its output is
built from the fixed design matrix `predictors`, a closed constant that
never depends on the input values. -/
theorem monthly_regression_requires_length12 (ts : List Val) :
    (ts.length ≠ 12 → monthly_regression ts = .error .valueError) ∧
    (ts.length = 12 → (∀ x ∈ ts, x ≠ Val.nan) →
      monthly_regression ts
        = .ok (List.ofFn fun m : Fin 12 =>
            Val.v (∑ j : Fin 5, predictors m j
              * lstsqC (fun mm : Fin 12 => (ts.getD (mm : ℕ) Val.nan).toK) j))) := by
  constructor
  · intro h
    simp only [monthly_regression, if_neg h]
  · intro h12 hnum
    simp only [monthly_regression, if_pos h12, if_pos hnum]

/-- Witness for C9 at a concrete length-1 input. -/
theorem monthly_regression_requires_length12_witness :
    ([Val.v 1].length ≠ 12) ∧ monthly_regression [Val.v 1] = .error .valueError :=
  ⟨by decide, (monthly_regression_requires_length12 [Val.v 1]).1 (by decide)⟩

/-- **C10.** The outputs of `monthly_mean` and `monthly_anomaly_series`
depend on the latitude/longitude arrays only through their lengths. -/
theorem coords_matter_only_through_lengths (X : NpArr) (lat lat2 lon lon2 : List Val)
    (hlat : lat.length = lat2.length) (hlon : lon.length = lon2.length) :
    monthly_mean X lat lon = monthly_mean X lat2 lon2 ∧
    monthly_anomaly_series X lat lon = monthly_anomaly_series X lat2 lon2 := by
  constructor
  · simp only [monthly_mean, hlat, hlon]
    rfl
  · simp only [monthly_anomaly_series, monthly_mean, regressAll, hlat, hlon]
    rfl

/-- Witness for C10: different coordinate values, equal lengths. -/
theorem coords_matter_only_through_lengths_witness :
    (([Val.v 1] : List Val).length = ([Val.v 2] : List Val).length
      ∧ ([Val.v 3] : List Val).length = ([Val.v 4] : List Val).length) ∧
    (monthly_mean ⟨[24, 1, 1], List.replicate 24 (Val.v 7)⟩ [Val.v 1] [Val.v 3]
        = monthly_mean ⟨[24, 1, 1], List.replicate 24 (Val.v 7)⟩ [Val.v 2] [Val.v 4] ∧
      monthly_anomaly_series ⟨[24, 1, 1], List.replicate 24 (Val.v 7)⟩ [Val.v 1] [Val.v 3]
        = monthly_anomaly_series ⟨[24, 1, 1], List.replicate 24 (Val.v 7)⟩ [Val.v 2] [Val.v 4]) :=
  ⟨⟨rfl, rfl⟩, coords_matter_only_through_lengths _ [Val.v 1] [Val.v 2] [Val.v 3] [Val.v 4] rfl rfl⟩

/-- **C3** (code bug): on a grid with `T = 13` (not a multiple of 12) and
matching coordinate arrays, `monthly_anomaly_series` raises a numpy
broadcast `ValueError` — `time_series - series_monthly_mean_fit` subtracts a
`(12, 1, 1)` tiled fit from the *untruncated* `(13, 1, 1)` input — instead
of returning an anomaly series of the truncated length `⌊13/12⌋*12 = 12`
promised by the spec (and by the function's own docstring, which says only
complete years are considered). -/
theorem monthly_anomaly_series_T13_broadcast_error :
    monthly_anomaly_series ⟨[13, 1, 1], List.ofFn fun t : Fin 13 => Val.v ⟨(t : ℕ), 0⟩⟩
      [Val.v 0] [Val.v 0] = .error .valueError := by decide

/-- **C4** (counterexample): on a grid with `T = 11 < 12`, `monthly_mean`
does not raise anything — there is no `InsufficientDataError` anywhere in
the code — it returns a `(12, 1, 1)` array of NaN (numpy's mean of an empty
slice). -/
theorem monthly_mean_T11_nan_field :
    monthly_mean ⟨[11, 1, 1], List.ofFn fun t : Fin 11 => Val.v ⟨(t : ℕ), 0⟩⟩ [Val.v 0] [Val.v 0]
      = .ok ⟨[12, 1, 1], List.replicate 12 Val.nan⟩ := by decide

/-- **C5** (counterexample): a call of `monthly_mean` on a `(12, 2, 3)` grid
with swapped coordinate arrays (3 latitudes, 2 longitudes — neither matches
its grid axis) raises nothing at all: `72 = 12·3·2`, so the reshape
silently succeeds on misinterpreted data.  No `ShapeMismatchError` exists
in the code. -/
theorem monthly_mean_mismatched_coords_no_error :
    (monthly_mean ⟨[12, 2, 3], List.ofFn fun t : Fin 72 => Val.v ⟨(t : ℕ), 0⟩⟩
        [Val.v 0, Val.v 0, Val.v 0] [Val.v 0, Val.v 0]).isOk = true
    ∧ ([Val.v 0, Val.v 0, Val.v 0] : List Val).length
        ≠ (⟨[12, 2, 3], List.ofFn fun t : Fin 72 => Val.v ⟨(t : ℕ), 0⟩⟩ : NpArr).dim 1 := by
  constructor <;> decide

/-- **C5** (amended): `monthly_mean` raises (a numpy `ValueError`, the only
shape-related error in the code — no `ShapeMismatchError` class exists) if
and only if `12·len(lat)·len(lon)` is zero or fails to divide the truncated
buffer size `⌊T/12⌋·12·n_lat·n_lon`.  In particular a coordinate-length
mismatch whose product happens to divide the buffer is silently accepted. -/
theorem monthly_mean_value_error_iff (X : NpArr) (lat lon : List Val) :
    monthly_mean X lat lon = .error .valueError
      ↔ (12 * (lat.length * lon.length) = 0
         ∨ ¬ (12 * (lat.length * lon.length) ∣
              X.dim 0 / 12 * 12 * (X.dim 1 * X.dim 2))) := by
  constructor
  · intro h
    by_contra hc
    simp only [monthly_mean, if_neg hc] at h
    exact absurd h (by simp)
  · intro hc
    simp only [monthly_mean, if_pos hc]

/-- Witness for the C5 amended theorem: `(12, 1, 1)` grid, two latitudes —
`24` does not divide `12`, so the reshape raises `ValueError`. -/
theorem monthly_mean_value_error_iff_witness :
    (12 * (([Val.v 0, Val.v 1] : List Val).length * ([Val.v 0] : List Val).length) = 0
      ∨ ¬ (12 * (([Val.v 0, Val.v 1] : List Val).length * ([Val.v 0] : List Val).length) ∣
           (⟨[12, 1, 1], List.replicate 12 (Val.v 5)⟩ : NpArr).dim 0 / 12 * 12
             * ((⟨[12, 1, 1], List.replicate 12 (Val.v 5)⟩ : NpArr).dim 1
               * (⟨[12, 1, 1], List.replicate 12 (Val.v 5)⟩ : NpArr).dim 2)))
    ∧ monthly_mean ⟨[12, 1, 1], List.replicate 12 (Val.v 5)⟩ [Val.v 0, Val.v 1] [Val.v 0]
        = .error .valueError :=
  ⟨by decide,
   (monthly_mean_value_error_iff ⟨[12, 1, 1], List.replicate 12 (Val.v 5)⟩
     [Val.v 0, Val.v 1] [Val.v 0]).mpr (by decide)⟩
theorem div_recover (t r m : ℕ) (hm : 0 < m) (hr : r < m) : (t * m + r) / m = t := by
  rw [Nat.add_comm, Nat.add_mul_div_right _ _ hm, Nat.div_eq_of_lt hr, Nat.zero_add]

theorem mod_recover (t r m : ℕ) (hr : r < m) : (t * m + r) % m = r := by
  rw [Nat.add_comm, Nat.add_mul_mod_self_right, Nat.mod_eq_of_lt hr]

theorem bidx_of_lt {i d : ℕ} (h : i < d) : bidx i d = i := by
  rw [bidx]
  split
  · omega
  · rfl

theorem valSum_numeric (l : List Val) (h : ∀ x ∈ l, x ≠ Val.nan) :
    ∃ s : K, valSum l = Val.v s := by
  induction l with
  | nil => exact ⟨0, rfl⟩
  | cons a l ih =>
    obtain ⟨s, hs⟩ := ih (fun x hx => h x (List.mem_cons_of_mem a hx))
    cases a with
    | nan => exact absurd rfl (h Val.nan (List.mem_cons_self _ _))
    | v b =>
      refine ⟨b + s, ?_⟩
      rw [valSum, List.foldr_cons]
      rw [show List.foldr Val.add (Val.v 0) l = valSum l from rfl, hs]
      rfl

theorem valMean_numeric (l : List Val) (q : ℕ) (hq : q ≠ 0) (h : ∀ x ∈ l, x ≠ Val.nan) :
    valMean l q ≠ Val.nan := by
  obtain ⟨s, hs⟩ := valSum_numeric l h
  rw [valMean, hs, Val.divNat, if_neg hq]
  intro hcon
  cases hcon

theorem getD_mem (l : List Val) (k : ℕ) (h : k < l.length) : l.getD k Val.nan ∈ l := by
  rw [List.getD_eq_getElem?_getD, List.getElem?_eq_getElem h]
  exact List.getElem_mem h

theorem mapM_except_ok (f : ℕ → Except NpError (List Val)) (l : List ℕ)
    (h : ∀ a ∈ l, ∃ b, f a = .ok b) :
    ∃ out : List (List Val), l.mapM f = .ok out ∧ out.length = l.length ∧
      ∀ i, i < l.length → f (l.getD i 0) = .ok (out.getD i []) := by
  induction l with
  | nil => exact ⟨[], rfl, rfl, fun i hi => absurd hi (by simp)⟩
  | cons a l ih =>
    obtain ⟨b, hb⟩ := h a (List.mem_cons_self a l)
    obtain ⟨out, hout, hlen, hget⟩ := ih (fun x hx => h x (List.mem_cons_of_mem a hx))
    refine ⟨b :: out, ?_, by simp [hlen], ?_⟩
    · rw [List.mapM_cons, hb, hout]
      rfl
    · intro i hi
      cases i with
      | zero => simpa using hb
      | succ i => simpa using hget i (by simpa using hi)

theorem sub3_same_shape (A B : NpArr) (d0 d1 d2 : ℕ)
    (hA : A.shape = [d0, d1, d2]) (hB : B.shape = [d0, d1, d2])
    (h1 : 0 < d1) (h2 : 0 < d2) :
    ∃ C, sub3 A B = .ok C ∧ C.shape = [d0, d1, d2] ∧
      ∀ t i j, t < d0 → i < d1 → j < d2 →
        C.at3 t i j = Val.sub (A.at3 t i j) (B.at3 t i j) := by
  have hAd : ∀ i, A.dim i = [d0, d1, d2].getD i 1 := fun i => by simp [NpArr.dim, hA]
  have hBd : ∀ i, B.dim i = [d0, d1, d2].getD i 1 := fun i => by simp [NpArr.dim, hB]
  have hAs : ∀ i, A.shape.getD i 1 = [d0, d1, d2].getD i 1 := fun i => by rw [hA]
  have hBs : ∀ i, B.shape.getD i 1 = [d0, d1, d2].getD i 1 := fun i => by rw [hB]
  have hb0 : bdim (A.dim 0) (B.dim 0) = some d0 := by
    rw [hAd 0, hBd 0]; simp [bdim]
  have hb1 : bdim (A.dim 1) (B.dim 1) = some d1 := by
    rw [hAd 1, hBd 1]; simp [bdim]
  have hb2 : bdim (A.dim 2) (B.dim 2) = some d2 := by
    rw [hAd 2, hBd 2]; simp [bdim]
  rw [sub3, hb0, hb1, hb2]
  refine ⟨_, rfl, rfl, ?_⟩
  intro t i j ht hi hj
  have hk0 : t * (d1 * d2) + i * d2 + j < d0 * (d1 * d2) := by
    rw [Nat.add_assoc]
    exact idx3_lt ht hi hj
  simp only [NpArr.at3, NpArr.dim, List.getD_cons_succ, List.getD_cons_zero]
  rw [getD_ofFn _ _ _ hk0]
  have hr : i * d2 + j < d1 * d2 := idx2_lt hi hj
  have hdiv : (t * (d1 * d2) + i * d2 + j) / (d1 * d2) = t := by
    rw [Nat.add_assoc]
    exact div_recover t (i * d2 + j) (d1 * d2) (Nat.mul_pos h1 h2) hr
  have hmod : (t * (d1 * d2) + i * d2 + j) % (d1 * d2) = i * d2 + j := by
    rw [Nat.add_assoc]
    exact mod_recover t (i * d2 + j) (d1 * d2) hr
  simp only [hdiv, hmod, div_recover i j d2 h2 hj, mod_recover i j d2 hj]
  simp only [hAs 0, hAs 1, hAs 2, hBs 0, hBs 1, hBs 2,
    List.getD_cons_succ, List.getD_cons_zero]
  rw [bidx_of_lt ht, bidx_of_lt hi, bidx_of_lt hj]

theorem flatten_replicate_getD (d : List Val) (Y k : ℕ) (hk : k < Y * d.length) :
    (List.flatten (List.replicate Y d)).getD k Val.nan = d.getD (k % d.length) Val.nan := by
  induction Y generalizing k with
  | zero => simp at hk
  | succ Y ih =>
    rw [List.replicate_succ, List.flatten_cons]
    by_cases hlt : k < d.length
    · rw [List.getD_eq_getElem?_getD, List.getElem?_append, if_pos hlt,
        ← List.getD_eq_getElem?_getD, Nat.mod_eq_of_lt hlt]
    · push_neg at hlt
      have hsub : k - d.length < Y * d.length := by
        rw [Nat.succ_mul] at hk
        omega
      rw [List.getD_eq_getElem?_getD, List.getElem?_append, if_neg (by omega),
        ← List.getD_eq_getElem?_getD, ih (k - d.length) hsub]
      conv_rhs => rw [Nat.mod_eq_sub_mod hlt]
theorem except_bind_ok {α β : Type} (a : α) (f : α → Except NpError β) :
    (Except.ok a : Except NpError α) >>= f = f a := rfl

theorem monthly_regression_unfold_ok (l : List Val) (h12 : l.length = 12)
    (hnum : ∀ x ∈ l, x ≠ Val.nan) :
    monthly_regression l
      = .ok (List.ofFn fun m : Fin 12 =>
          Val.v (∑ j : Fin 5, predictors m j
            * lstsqC (fun mm : Fin 12 => (l.getD (mm : ℕ) Val.nan).toK) j)) := by
  simp only [monthly_regression, if_pos h12, if_pos hnum]

theorem range_getD (n k : ℕ) (hk : k < n) : (List.range n).getD k 0 = k := by
  rw [List.getD_eq_getElem?_getD, List.getElem?_eq_getElem (by simpa using hk)]
  simp

theorem regressAll_ok (mean : NpArr) (L1 L2 : ℕ)
    (hcols : ∀ k, k < L1 * L2 →
      ∃ out, monthly_regression (meanColumn mean (k / L2) (k % L2)) = .ok out) :
    ∃ cols, regressAll mean L1 L2 = .ok cols ∧ cols.length = L1 * L2 ∧
      ∀ k, k < L1 * L2 →
        monthly_regression (meanColumn mean (k / L2) (k % L2)) = .ok (cols.getD k []) := by
  obtain ⟨out, hout, hlen, hget⟩ := mapM_except_ok _ (List.range (L1 * L2))
    (fun a ha => hcols a (List.mem_range.mp ha))
  refine ⟨out, hout, by simpa using hlen, ?_⟩
  intro k hk
  have h := hget k (by simpa using hk)
  rwa [range_getD _ _ hk] at h

theorem fit_at3 (cols : List (List Val)) (Y L1 L2 t i j : ℕ)
    (ht : t < Y * 12) (hi : i < L1) (hj : j < L2) :
    (⟨[Y * 12, L1, L2], List.flatten (List.replicate Y (auxData cols L1 L2))⟩ : NpArr).at3 t i j
      = (cols.getD (i * L2 + j) []).getD (t % 12) Val.nan := by
  have hL2 : 0 < L2 := by omega
  have hL : 0 < L1 * L2 := Nat.mul_pos (by omega) hL2
  have hr : i * L2 + j < L1 * L2 := idx2_lt hi hj
  have hauxlen : (auxData cols L1 L2).length = 12 * (L1 * L2) := by simp [auxData]
  have hkin : t * (L1 * L2) + (i * L2 + j) < Y * (12 * (L1 * L2)) := by
    have h1 : t * (L1 * L2) + (i * L2 + j) < (Y * 12) * (L1 * L2) := idx2_lt ht hr
    calc t * (L1 * L2) + (i * L2 + j) < Y * 12 * (L1 * L2) := h1
      _ = Y * (12 * (L1 * L2)) := by ring
  have hkk : (t % 12) * (L1 * L2) + (i * L2 + j) < 12 * (L1 * L2) :=
    idx2_lt (Nat.mod_lt _ (by norm_num)) hr
  have hsplit : t * (L1 * L2) + (i * L2 + j)
      = (t / 12) * (12 * (L1 * L2)) + ((t % 12) * (L1 * L2) + (i * L2 + j)) := by
    have hdm : 12 * (t / 12) + t % 12 = t := Nat.div_add_mod t 12
    calc t * (L1 * L2) + (i * L2 + j)
        = (12 * (t / 12) + t % 12) * (L1 * L2) + (i * L2 + j) := by rw [hdm]
      _ = (t / 12) * (12 * (L1 * L2)) + ((t % 12) * (L1 * L2) + (i * L2 + j)) := by ring
  simp only [NpArr.at3, NpArr.dim, List.getD_cons_succ, List.getD_cons_zero]
  rw [show t * (L1 * L2) + i * L2 + j = t * (L1 * L2) + (i * L2 + j) from by ring]
  rw [flatten_replicate_getD _ _ _ (by rw [hauxlen]; exact hkin)]
  rw [hauxlen, hsplit, Nat.mul_comm (t / 12) (12 * (L1 * L2)), Nat.mul_add_mod,
    Nat.mod_eq_of_lt hkk]
  rw [auxData, getD_ofFn _ _ _ hkk]
  rw [show ((⟨(t % 12) * (L1 * L2) + (i * L2 + j), hkk⟩ : Fin (12 * (L1 * L2))) : ℕ)
      = (t % 12) * (L1 * L2) + (i * L2 + j) from rfl]
  rw [mod_recover _ _ _ hr, div_recover _ _ _ hL hr]
theorem at3_numeric (X : NpArr) (T nlat nlon : ℕ) (hsh : X.shape = [T, nlat, nlon])
    (hlen : X.data.length = T * (nlat * nlon)) (hnum : ∀ x ∈ X.data, x ≠ Val.nan)
    (t i j : ℕ) (ht : t < T) (hi : i < nlat) (hj : j < nlon) :
    X.at3 t i j ≠ Val.nan := by
  have hs1 : X.dim 1 = nlat := by simp [NpArr.dim, hsh]
  have hs2 : X.dim 2 = nlon := by simp [NpArr.dim, hsh]
  simp only [NpArr.at3, hs1, hs2]
  apply hnum
  apply getD_mem
  rw [hlen, Nat.add_assoc]
  exact idx3_lt ht hi hj

/-- **C6.** For a grid whose time length is a (positive) multiple of 12, with
matching coordinate arrays and finite (non-NaN) data,
`monthly_anomaly_series` succeeds and its anomaly and fit outputs satisfy
`anomaly + fit = input` exactly, elementwise, over the full (= truncated)
input length. -/
theorem anomaly_plus_fit_eq_input (X : NpArr) (lat lon : List Val) (T nlat nlon : ℕ)
    (hsh : X.shape = [T, nlat, nlon]) (hlen : X.data.length = T * (nlat * nlon))
    (hdvd : 12 ∣ T) (hT : 12 ≤ T)
    (hlat : lat.length = nlat) (hlon : lon.length = nlon)
    (hnlat : 0 < nlat) (hnlon : 0 < nlon)
    (hnum : ∀ x ∈ X.data, x ≠ Val.nan) :
    ∃ A F M : NpArr, monthly_anomaly_series X lat lon = .ok (A, F, M) ∧
      A.shape = [T, nlat, nlon] ∧ F.shape = [T, nlat, nlon] ∧
      ∀ t i j, t < T → i < nlat → j < nlon →
        Val.add (A.at3 t i j) (F.at3 t i j) = X.at3 t i j := by
  have hd0 : X.dim 0 = T := by simp [NpArr.dim, hsh]
  have hd1 : X.dim 1 = nlat := by simp [NpArr.dim, hsh]
  have hd2 : X.dim 2 = nlon := by simp [NpArr.dim, hsh]
  have hlat0 : 0 < lat.length := by rw [hlat]; exact hnlat
  have hlon0 : 0 < lon.length := by rw [hlon]; exact hnlon
  have htm : T / 12 * 12 = T := Nat.div_mul_cancel hdvd
  obtain ⟨M, hM, hMsh, hMlen, hMat⟩ :=
    monthly_mean_ok X lat lon (by rw [hd1]; exact hlat) (by rw [hd2]; exact hlon)
      (by rw [hd1, hd2]; exact Nat.mul_pos hnlat hnlon)
  have hMnum : ∀ t i j, t < 12 → i < nlat → j < nlon → M.at3 t i j ≠ Val.nan := by
    intro t i j ht hi hj
    rw [hMat t i j ht (by rw [hd1]; exact hi) (by rw [hd2]; exact hj)]
    apply valMean_numeric
    · rw [hd0]
      omega
    · intro x hx
      obtain ⟨y, hy⟩ := (List.mem_ofFn _ _).mp hx
      rw [← hy]
      have h1 : (y : ℕ) < T / 12 := lt_of_lt_of_eq y.isLt (by rw [hd0])
      have hyT : (y : ℕ) * 12 + t < T := by
        calc (y : ℕ) * 12 + t < (y : ℕ) * 12 + 12 := by omega
          _ = ((y : ℕ) + 1) * 12 := by ring
          _ ≤ T / 12 * 12 := Nat.mul_le_mul_right _ h1
          _ = T := htm
      exact at3_numeric X T nlat nlon hsh hlen hnum _ i j hyT hi hj
  have hcols : ∀ k, k < lat.length * lon.length →
      ∃ out, monthly_regression (meanColumn M (k / lon.length) (k % lon.length)) = .ok out := by
    intro k hk
    refine ⟨_, monthly_regression_unfold_ok _ (by simp [meanColumn]) ?_⟩
    intro x hx
    obtain ⟨mm, hmm⟩ := (List.mem_ofFn _ _).mp hx
    rw [← hmm]
    apply hMnum
    · exact mm.isLt
    · rw [← hlat]
      exact (Nat.div_lt_iff_lt_mul hlon0).mpr hk
    · rw [← hlon]
      exact Nat.mod_lt _ hlon0
  obtain ⟨cols, hcolsok, hcolslen, hcolsget⟩ := regressAll_ok M lat.length lon.length hcols
  have hFsh : (⟨[X.dim 0 / 12 * 12, lat.length, lon.length],
      List.flatten (List.replicate (X.dim 0 / 12)
        (auxData cols lat.length lon.length))⟩ : NpArr).shape = [T, nlat, nlon] := by
    show [X.dim 0 / 12 * 12, lat.length, lon.length] = [T, nlat, nlon]
    rw [hd0, htm, hlat, hlon]
  obtain ⟨A, hAok, hAsh, hAat⟩ := sub3_same_shape X
    ⟨[X.dim 0 / 12 * 12, lat.length, lon.length],
     List.flatten (List.replicate (X.dim 0 / 12) (auxData cols lat.length lon.length))⟩
    T nlat nlon hsh hFsh hnlat hnlon
  have hchain : monthly_anomaly_series X lat lon
      = .ok (A, ⟨[X.dim 0 / 12 * 12, lat.length, lon.length],
          List.flatten (List.replicate (X.dim 0 / 12)
            (auxData cols lat.length lon.length))⟩, M) := by
    simp only [monthly_anomaly_series]
    rw [hM]
    simp only [except_bind_ok]
    rw [hcolsok]
    simp only [except_bind_ok]
    rw [hAok]
    simp only [except_bind_ok]
    rfl
  refine ⟨A, _, M, hchain, hAsh, hFsh, ?_⟩
  intro t i j ht hi hj
  rw [hAat t i j ht hi hj]
  have hFat : (⟨[X.dim 0 / 12 * 12, lat.length, lon.length],
      List.flatten (List.replicate (X.dim 0 / 12)
        (auxData cols lat.length lon.length))⟩ : NpArr).at3 t i j
      = (cols.getD (i * lon.length + j) []).getD (t % 12) Val.nan :=
    fit_at3 cols (X.dim 0 / 12) lat.length lon.length t i j
      (by rw [hd0, htm]; exact ht) (by rw [hlat]; exact hi) (by rw [hlon]; exact hj)
  have hk : i * lon.length + j < lat.length * lon.length :=
    idx2_lt (by rw [hlat]; exact hi) (by rw [hlon]; exact hj)
  have hcol := hcolsget _ hk
  have hunf := monthly_regression_unfold_ok
    (meanColumn M ((i * lon.length + j) / lon.length) ((i * lon.length + j) % lon.length))
    (by simp [meanColumn]) (by
      intro x hx
      obtain ⟨mm, hmm⟩ := (List.mem_ofFn _ _).mp hx
      rw [← hmm]
      apply hMnum
      · exact mm.isLt
      · rw [← hlat]
        exact (Nat.div_lt_iff_lt_mul hlon0).mpr hk
      · rw [← hlon]
        exact Nat.mod_lt _ hlon0)
  have hcolval := Except.ok.inj (hcol.symm.trans hunf)
  have hFnum : (⟨[X.dim 0 / 12 * 12, lat.length, lon.length],
      List.flatten (List.replicate (X.dim 0 / 12)
        (auxData cols lat.length lon.length))⟩ : NpArr).at3 t i j ≠ Val.nan := by
    rw [hFat, hcolval, getD_ofFn _ _ _ (Nat.mod_lt t (by norm_num))]
    intro hcon
    cases hcon
  exact val_sub_add_cancel _ _ hFnum

theorem val_divNat_zero (x : Val) : Val.divNat x 0 = Val.nan := rfl

theorem valMean_count_zero (l : List Val) (q : ℕ) (h : q = 0) : valMean l q = Val.nan := by
  subst h
  rfl

theorem regression_of_mem_nan (l : List Val) (h12 : l.length = 12) (hnan : Val.nan ∈ l) :
    monthly_regression l = .error .linAlgError := by
  simp only [monthly_regression, if_pos h12]
  rw [if_neg]
  intro hall
  exact (hall _ hnan) rfl

/-- **C4** (amended): there is no `InsufficientDataError` in the code.  For
`T < 12`, `monthly_mean` silently returns a `(12, n_lat, n_lon)` all-NaN
field (numpy's mean of an empty slice), and `monthly_anomaly_series` fails —
but with `np.linalg.LinAlgError` (lstsq on a NaN right-hand side), not an
`InsufficientDataError`.  For `T = 12` the computation succeeds: a 12-length
monthly mean over the single complete year. -/
theorem monthly_mean_short_series_behavior (X : NpArr) (lat lon : List Val) (T nlat nlon : ℕ)
    (hsh : X.shape = [T, nlat, nlon])
    (hlat : lat.length = nlat) (hlon : lon.length = nlon)
    (hnlat : 0 < nlat) (hnlon : 0 < nlon) :
    (T < 12 →
      monthly_mean X lat lon
          = .ok ⟨[12, nlat, nlon], List.ofFn fun _ : Fin (12 * (nlat * nlon)) => Val.nan⟩
        ∧ monthly_anomaly_series X lat lon = .error .linAlgError) ∧
    (T = 12 →
      ∃ M, monthly_mean X lat lon = .ok M ∧ M.shape = [12, nlat, nlon] ∧
        ∀ m i j, m < 12 → i < nlat → j < nlon →
          M.at3 m i j = valMean [X.at3 m i j] 1) := by
  have hd0 : X.dim 0 = T := by simp [NpArr.dim, hsh]
  have hd1 : X.dim 1 = nlat := by simp [NpArr.dim, hsh]
  have hd2 : X.dim 2 = nlon := by simp [NpArr.dim, hsh]
  constructor
  · intro hT
    have hY : X.dim 0 / 12 = 0 := by rw [hd0]; exact Nat.div_eq_of_lt hT
    have hq0 : X.dim 0 / 12 * 12 * (X.dim 1 * X.dim 2) / (12 * (X.dim 1 * X.dim 2)) = 0 := by
      rw [hY]
      simp
    have hmean : monthly_mean X lat lon
        = .ok ⟨[12, nlat, nlon], List.ofFn fun _ : Fin (12 * (nlat * nlon)) => Val.nan⟩ := by
      rw [monthly_mean_spec X lat lon (by rw [hd1]; exact hlat) (by rw [hd2]; exact hlon)
        (by rw [hd1, hd2]; exact Nat.mul_pos hnlat hnlon)]
      refine congrArg Except.ok ?_
      have hshape : ([12, X.dim 1, X.dim 2] : List ℕ) = [12, nlat, nlon] := by rw [hd1, hd2]
      rw [show (⟨[12, X.dim 1, X.dim 2], _⟩ : NpArr) = _ from rfl]
      refine congrArg₂ NpArr.mk hshape ?_
      refine ofFn_ext (by rw [hd1, hd2]) _ _ ?_
      intro k hk1 hk2
      exact valMean_count_zero _ _ hq0
    refine ⟨hmean, ?_⟩
    simp only [monthly_anomaly_series, hmean]
    show (regressAll _ lat.length lon.length).bind _ = _
    have hcol : regressAll ⟨[12, nlat, nlon], List.ofFn fun _ : Fin (12 * (nlat * nlon)) => Val.nan⟩
        lat.length lon.length = .error .linAlgError := by
      obtain ⟨m, hm⟩ : ∃ m, lat.length * lon.length = m + 1 :=
        ⟨lat.length * lon.length - 1, by
          have : 0 < lat.length * lon.length := by
            rw [hlat, hlon]; exact Nat.mul_pos hnlat hnlon
          omega⟩
      rw [regressAll, hm, List.range_succ_eq_map, List.mapM_cons]
      have hc : monthly_regression
          (meanColumn ⟨[12, nlat, nlon], List.ofFn fun _ : Fin (12 * (nlat * nlon)) => Val.nan⟩
            (0 / lon.length) (0 % lon.length)) = .error .linAlgError := by
        apply regression_of_mem_nan
        · simp [meanColumn]
        · have h0 : (⟨[12, nlat, nlon], List.ofFn fun _ : Fin (12 * (nlat * nlon)) => Val.nan⟩ :
              NpArr).at3 0 (0 / lon.length) (0 % lon.length) = Val.nan := by
            simp only [NpArr.at3, NpArr.dim, Nat.zero_div, Nat.zero_mod]
            rw [List.getD_eq_getElem?_getD, List.getElem?_ofFn]
            simp [List.ofFnNthVal]
            split <;> rfl
          rw [meanColumn]
          exact (List.mem_ofFn _ _).mpr ⟨0, h0⟩
      rw [hc]
      rfl
    rw [hcol]
    rfl
  · intro hT
    subst hT
    obtain ⟨M, hM, hMsh, hMlen, hMat⟩ :=
      monthly_mean_ok X lat lon (by rw [hd1]; exact hlat) (by rw [hd2]; exact hlon)
        (by rw [hd1, hd2]; exact Nat.mul_pos hnlat hnlon)
    refine ⟨M, hM, by rw [hMsh, hd1, hd2], ?_⟩
    intro m i j hm hi hj
    rw [hMat m i j hm (by rw [hd1]; exact hi) (by rw [hd2]; exact hj)]
    refine Eq.trans (congrArg₂ valMean
      (ofFn_ext (by rw [hd0]) _ (fun y : Fin (12 / 12) => X.at3 ((y : ℕ) * 12 + m) i j)
        (fun y h1 h2 => rfl)) (by rw [hd0])) ?_
    rw [show (List.ofFn fun y : Fin (12 / 12) => X.at3 ((y : ℕ) * 12 + m) i j)
        = [X.at3 (0 * 12 + m) i j] from rfl]
    rw [Nat.zero_mul, Nat.zero_add]

/-- Witness for C6 at a concrete `(24, 1, 1)` numeric grid. -/
theorem anomaly_plus_fit_eq_input_witness :
    ((⟨[24, 1, 1], List.replicate 24 (Val.v 2)⟩ : NpArr).shape = [24, 1, 1]
      ∧ (⟨[24, 1, 1], List.replicate 24 (Val.v 2)⟩ : NpArr).data.length = 24 * (1 * 1)
      ∧ 12 ∣ 24 ∧ 12 ≤ 24
      ∧ (∀ x ∈ (⟨[24, 1, 1], List.replicate 24 (Val.v 2)⟩ : NpArr).data, x ≠ Val.nan))
    ∧ (∃ A F M : NpArr,
        monthly_anomaly_series ⟨[24, 1, 1], List.replicate 24 (Val.v 2)⟩ [Val.v 0] [Val.v 0]
            = .ok (A, F, M) ∧
        A.shape = [24, 1, 1] ∧ F.shape = [24, 1, 1] ∧
        ∀ t i j, t < 24 → i < 1 → j < 1 →
          Val.add (A.at3 t i j) (F.at3 t i j)
            = (⟨[24, 1, 1], List.replicate 24 (Val.v 2)⟩ : NpArr).at3 t i j) :=
  ⟨⟨rfl, by decide, by decide, by decide, by decide⟩,
   anomaly_plus_fit_eq_input _ [Val.v 0] [Val.v 0] 24 1 1 rfl (by decide) (by decide)
     (by decide) rfl rfl (by decide) (by decide) (by decide)⟩

/-- Witness for the C4 amended theorem at a concrete `(11, 2, 1)` grid. -/
theorem monthly_mean_short_series_behavior_witness :
    ((⟨[11, 2, 1], List.replicate 22 (Val.v 3)⟩ : NpArr).shape = [11, 2, 1]
      ∧ ([Val.v 0, Val.v 1] : List Val).length = 2 ∧ ([Val.v 9] : List Val).length = 1
      ∧ (0 : ℕ) < 2 ∧ (0 : ℕ) < 1 ∧ 11 < 12)
    ∧ (monthly_mean ⟨[11, 2, 1], List.replicate 22 (Val.v 3)⟩ [Val.v 0, Val.v 1] [Val.v 9]
          = .ok ⟨[12, 2, 1], List.ofFn fun _ : Fin (12 * (2 * 1)) => Val.nan⟩
        ∧ monthly_anomaly_series ⟨[11, 2, 1], List.replicate 22 (Val.v 3)⟩
            [Val.v 0, Val.v 1] [Val.v 9]
          = .error .linAlgError) :=
  ⟨⟨rfl, rfl, rfl, by decide, by decide, by decide⟩,
   (monthly_mean_short_series_behavior ⟨[11, 2, 1], List.replicate 22 (Val.v 3)⟩
     [Val.v 0, Val.v 1] [Val.v 9] 11 2 1 rfl rfl rfl
     (by decide) (by decide)).1 (by decide)⟩
/-- The design matrix as the spec describes it, over `ℝ`: rows
`{1, cos(2π·m/12), sin(2π·m/12), cos(4π·m/12), sin(4π·m/12)}` for
`m = 1, …, 12` (row index `m-1 : Fin 12`).  This is the *specification-side*
object that the executable `predictors` is checked against
(`predictors_designMatrixR`). -/
noncomputable def designMatrixR (m : Fin 12) (j : Fin 5) : ℝ :=
  match (j : ℕ) with
  | 1 => Real.cos (2 * Real.pi * ((m : ℕ) + 1) / 12)
  | 2 => Real.sin (2 * Real.pi * ((m : ℕ) + 1) / 12)
  | 3 => Real.cos (4 * Real.pi * ((m : ℕ) + 1) / 12)
  | 4 => Real.sin (4 * Real.pi * ((m : ℕ) + 1) / 12)
  | _ => 1

/-- The executable design matrix is exactly the spec's trigonometric one. -/
theorem predictors_designMatrixR (m : Fin 12) (j : Fin 5) :
    KtoR (predictors m j) = designMatrixR m j := by
  fin_cases j
  · exact map_one KtoR
  · show KtoR (cosT ((m : ℕ) + 1)) = Real.cos (2 * Real.pi * ((m : ℕ) + 1) / 12)
    rw [KtoR_cosT]
    congr 1
    push_cast
    ring
  · show KtoR (sinT ((m : ℕ) + 1)) = Real.sin (2 * Real.pi * ((m : ℕ) + 1) / 12)
    rw [KtoR_sinT]
    congr 1
    push_cast
    ring
  · show KtoR (cosT (2 * ((m : ℕ) + 1))) = Real.cos (4 * Real.pi * ((m : ℕ) + 1) / 12)
    rw [KtoR_cosT]
    congr 1
    push_cast
    ring
  · show KtoR (sinT (2 * ((m : ℕ) + 1))) = Real.sin (4 * Real.pi * ((m : ℕ) + 1) / 12)
    rw [KtoR_sinT]
    congr 1
    push_cast
    ring

theorem K_a_one : (1 : K).a = 1 := rfl
theorem K_b_one : (1 : K).b = 0 := rfl
theorem K_a_zero : (0 : K).a = 0 := rfl
theorem K_b_zero : (0 : K).b = 0 := rfl

set_option maxHeartbeats 2000000 in
/-- The Gram matrix `PᵀP` of the harmonic design is the diagonal matrix
`diag(12, 6, 6, 6, 6)` (discrete orthogonality of the sampled harmonics). -/
theorem gram_diag (j k : Fin 5) :
    (∑ m : Fin 12, predictors m j * predictors m k)
      = if j = k then (⟨if (j : ℕ) = 0 then 12 else 6, 0⟩ : K) else 0 := by
  fin_cases j <;> fin_cases k <;>
    · apply K.ext_ab <;>
        simp only [Fin.sum_univ_succ, Fin.sum_univ_zero] <;>
        norm_num [predictors, cosT, sinT, cos12, sin12, K.mul_def, K.add_def,
          K.zero_def, K.one_def, Fin.ext_iff, Fin.val_succ, Fin.val_zero,
          K_a_one, K_b_one, K_a_zero, K_b_zero]

theorem dK_cancel (j : Fin 5) :
    (⟨if (j : ℕ) = 0 then 12 else 6, 0⟩ : K) * K.inv ⟨if (j : ℕ) = 0 then 12 else 6, 0⟩ = 1 := by
  by_cases h : (j : ℕ) = 0 <;>
    · simp only [h, if_true, if_false]
      apply K.ext_ab <;> norm_num [K.inv, K.mul_def, K.one_def, K_a_one, K_b_one]

/-- `lstsqC` satisfies the normal equations `Pᵀ(P c - y) = 0` — the
defining property of a least-squares solution. -/
theorem lstsq_normalK (y : Fin 12 → K) (j : Fin 5) :
    (∑ m : Fin 12, predictors m j * ((∑ k : Fin 5, predictors m k * lstsqC y k) - y m)) = 0 := by
  have hswap : (∑ m : Fin 12, predictors m j * (∑ k : Fin 5, predictors m k * lstsqC y k))
      = ∑ k : Fin 5, (∑ m : Fin 12, predictors m j * predictors m k) * lstsqC y k := by
    simp only [Finset.mul_sum]
    rw [Finset.sum_comm]
    refine Finset.sum_congr rfl fun k _ => ?_
    rw [Finset.sum_mul]
    refine Finset.sum_congr rfl fun m _ => ?_
    ring
  have hdiag : (∑ k : Fin 5, (∑ m : Fin 12, predictors m j * predictors m k) * lstsqC y k)
      = (⟨if (j : ℕ) = 0 then 12 else 6, 0⟩ : K) * lstsqC y j := by
    rw [Finset.sum_congr rfl (fun k _ => by rw [gram_diag j k])]
    simp [ite_mul, zero_mul, Finset.sum_ite_eq]
  have hden : (∑ m : Fin 12, predictors m j * predictors m j)
      = (⟨if (j : ℕ) = 0 then 12 else 6, 0⟩ : K) := by
    have h := gram_diag j j
    rwa [if_pos rfl] at h
  have hrhs : (⟨if (j : ℕ) = 0 then 12 else 6, 0⟩ : K) * lstsqC y j
      = ∑ m : Fin 12, predictors m j * y m := by
    rw [lstsqC, hden, K.div_def]
    calc (⟨if (j : ℕ) = 0 then 12 else 6, 0⟩ : K)
          * ((∑ m : Fin 12, predictors m j * y m)
            * K.inv ⟨if (j : ℕ) = 0 then 12 else 6, 0⟩)
        = (∑ m : Fin 12, predictors m j * y m)
          * ((⟨if (j : ℕ) = 0 then 12 else 6, 0⟩ : K)
            * K.inv ⟨if (j : ℕ) = 0 then 12 else 6, 0⟩) := by ring
      _ = (∑ m : Fin 12, predictors m j * y m) * 1 := by rw [dK_cancel j]
      _ = ∑ m : Fin 12, predictors m j * y m := mul_one _
  simp only [mul_sub]
  rw [Finset.sum_sub_distrib, hswap, hdiag, hrhs, sub_self]

/-- In `ℝ`: a coefficient vector satisfying the normal equations is a global
least-squares minimiser. -/
theorem normal_eq_minimizes (P : Fin 12 → Fin 5 → ℝ) (y : Fin 12 → ℝ) (c : Fin 5 → ℝ)
    (hne : ∀ j : Fin 5, (∑ m : Fin 12, P m j * ((∑ k : Fin 5, P m k * c k) - y m)) = 0)
    (c2 : Fin 5 → ℝ) :
    (∑ m : Fin 12, ((∑ j : Fin 5, P m j * c j) - y m) ^ 2)
      ≤ ∑ m : Fin 12, ((∑ j : Fin 5, P m j * c2 j) - y m) ^ 2 := by
  have hdecomp : ∀ m : Fin 12, (∑ j : Fin 5, P m j * c2 j) - y m
      = ((∑ j : Fin 5, P m j * c j) - y m) + (∑ j : Fin 5, P m j * (c2 j - c j)) := by
    intro m
    simp only [mul_sub, Finset.sum_sub_distrib]
    ring
  have hcross : (∑ m : Fin 12, ((∑ j : Fin 5, P m j * c j) - y m)
      * (∑ j : Fin 5, P m j * (c2 j - c j))) = 0 := by
    have h1 : ∀ m : Fin 12, ((∑ j : Fin 5, P m j * c j) - y m)
        * (∑ j : Fin 5, P m j * (c2 j - c j))
        = ∑ j : Fin 5, (c2 j - c j) * (P m j * ((∑ k : Fin 5, P m k * c k) - y m)) := by
      intro m
      rw [Finset.mul_sum]
      refine Finset.sum_congr rfl fun j _ => ?_
      ring
    rw [Finset.sum_congr rfl (fun m _ => h1 m), Finset.sum_comm]
    refine Finset.sum_eq_zero fun j _ => ?_
    rw [← Finset.mul_sum, hne j, mul_zero]
  have hexpand : (∑ m : Fin 12, ((∑ j : Fin 5, P m j * c2 j) - y m) ^ 2)
      = (∑ m : Fin 12, ((∑ j : Fin 5, P m j * c j) - y m) ^ 2)
        + (2 * (∑ m : Fin 12, ((∑ j : Fin 5, P m j * c j) - y m)
            * (∑ j : Fin 5, P m j * (c2 j - c j)))
          + ∑ m : Fin 12, (∑ j : Fin 5, P m j * (c2 j - c j)) ^ 2) :=
    calc (∑ m : Fin 12, ((∑ j : Fin 5, P m j * c2 j) - y m) ^ 2)
        = ∑ m : Fin 12, (((∑ j : Fin 5, P m j * c j) - y m)
            + (∑ j : Fin 5, P m j * (c2 j - c j))) ^ 2 :=
          Finset.sum_congr rfl (fun m _ => by rw [hdecomp m])
      _ = ∑ m : Fin 12, (((∑ j : Fin 5, P m j * c j) - y m) ^ 2
            + (2 * (((∑ j : Fin 5, P m j * c j) - y m) * (∑ j : Fin 5, P m j * (c2 j - c j)))
              + (∑ j : Fin 5, P m j * (c2 j - c j)) ^ 2)) :=
          Finset.sum_congr rfl (fun m _ => by ring)
      _ = (∑ m : Fin 12, ((∑ j : Fin 5, P m j * c j) - y m) ^ 2)
            + ((∑ m : Fin 12, 2 * (((∑ j : Fin 5, P m j * c j) - y m)
                * (∑ j : Fin 5, P m j * (c2 j - c j))))
              + ∑ m : Fin 12, (∑ j : Fin 5, P m j * (c2 j - c j)) ^ 2) := by
          rw [Finset.sum_add_distrib, Finset.sum_add_distrib]
      _ = (∑ m : Fin 12, ((∑ j : Fin 5, P m j * c j) - y m) ^ 2)
            + (2 * (∑ m : Fin 12, ((∑ j : Fin 5, P m j * c j) - y m)
                * (∑ j : Fin 5, P m j * (c2 j - c j)))
              + ∑ m : Fin 12, (∑ j : Fin 5, P m j * (c2 j - c j)) ^ 2) := by
          rw [Finset.mul_sum]
  rw [hexpand, hcross, mul_zero, zero_add]
  exact le_add_of_nonneg_right (Finset.sum_nonneg fun m _ => sq_nonneg _)

/-- **C2.** On a (numeric) 12-value input, `monthly_regression` returns the
12 fitted values `P @ c`, where `P` is the 12×5 design matrix with rows
`{1, cos(2π·m/12), sin(2π·m/12), cos(4π·m/12), sin(4π·m/12)}` for
`m = 1, …, 12` (`designMatrixR`) and `c` is a least-squares solution of
`P c ≈ input` (no real coefficient vector has a smaller sum of squared
residuals); the output has the same length (12) as the input. -/
theorem monthly_regression_least_squares (ts : List Val) (h12 : ts.length = 12)
    (hnum : ∀ x ∈ ts, x ≠ Val.nan) :
    ∃ out : List Val, monthly_regression ts = .ok out ∧ out.length = ts.length ∧
      ∃ c : Fin 5 → ℝ,
        (∀ m : Fin 12, KtoR ((out.getD (m : ℕ) Val.nan).toK)
            = ∑ j : Fin 5, designMatrixR m j * c j) ∧
        (∀ c2 : Fin 5 → ℝ,
          (∑ m : Fin 12, ((∑ j : Fin 5, designMatrixR m j * c j)
              - KtoR ((ts.getD (m : ℕ) Val.nan).toK)) ^ 2)
            ≤ ∑ m : Fin 12, ((∑ j : Fin 5, designMatrixR m j * c2 j)
              - KtoR ((ts.getD (m : ℕ) Val.nan).toK)) ^ 2) := by
  rw [monthly_regression_unfold_ok ts h12 hnum]
  refine ⟨_, rfl, by simp [h12], ?_⟩
  refine ⟨fun j => KtoR (lstsqC (fun mm : Fin 12 => (ts.getD (mm : ℕ) Val.nan).toK) j), ?_, ?_⟩
  · intro m
    rw [getD_ofFn _ _ _ m.isLt]
    show KtoR (∑ j : Fin 5,
        predictors ⟨(m : ℕ), m.isLt⟩ j
          * lstsqC (fun mm : Fin 12 => (ts.getD (mm : ℕ) Val.nan).toK) j) = _
    rw [map_sum]
    refine Finset.sum_congr rfl fun j _ => ?_
    rw [map_mul, predictors_designMatrixR]
  · intro c2
    refine normal_eq_minimizes designMatrixR
      (fun m => KtoR ((ts.getD (m : ℕ) Val.nan).toK)) _ ?_ c2
    intro j
    have h2 := congrArg KtoR (lstsq_normalK (fun mm : Fin 12 => (ts.getD (mm : ℕ) Val.nan).toK) j)
    simp only [map_sum, map_mul, map_sub, map_zero] at h2
    simp only [predictors_designMatrixR] at h2
    exact h2

/-- Witness for C2 at a concrete numeric 12-value input. -/
theorem monthly_regression_least_squares_witness :
    ((List.ofFn fun t : Fin 12 => Val.v ⟨(t : ℕ), 0⟩).length = 12
      ∧ ∀ x ∈ (List.ofFn fun t : Fin 12 => Val.v ⟨(t : ℕ), 0⟩), x ≠ Val.nan)
    ∧ (∃ out : List Val,
        monthly_regression (List.ofFn fun t : Fin 12 => Val.v ⟨(t : ℕ), 0⟩) = .ok out
        ∧ out.length = (List.ofFn fun t : Fin 12 => Val.v ⟨(t : ℕ), 0⟩).length
        ∧ ∃ c : Fin 5 → ℝ,
          (∀ m : Fin 12, KtoR ((out.getD (m : ℕ) Val.nan).toK)
              = ∑ j : Fin 5, designMatrixR m j * c j)
          ∧ ∀ c2 : Fin 5 → ℝ,
            (∑ m : Fin 12, ((∑ j : Fin 5, designMatrixR m j * c j)
                - KtoR (((List.ofFn fun t : Fin 12 => Val.v ⟨(t : ℕ), 0⟩).getD
                    (m : ℕ) Val.nan).toK)) ^ 2)
              ≤ ∑ m : Fin 12, ((∑ j : Fin 5, designMatrixR m j * c2 j)
                - KtoR (((List.ofFn fun t : Fin 12 => Val.v ⟨(t : ℕ), 0⟩).getD
                    (m : ℕ) Val.nan).toK)) ^ 2) :=
  ⟨⟨by decide, by decide⟩,
   monthly_regression_least_squares _ (by decide) (by decide)⟩
